import Mathlib

/-!
Shallow embedding of `pdf-ai-context-extractor` (Python) in Lean 4.

Strings are modelled as `List Char`.  Python regular expressions are
modelled by a small regex AST with a backtracking candidate enumerator
that reproduces Python's leftmost, greedy-with-backtracking match order.
`\d` and `\s` are modelled over their ASCII members (the repository's
patterns and data are ASCII digits and whitespace).  Python's `float()`
is modelled on finite decimal/exponent literals (`inf`/`nan` and digit
underscores are not modelled; no claim depends on them).  Numeric values
are exact decimals/fractions, with rational denotations for statements.
-/

/-- Strings of the Python program, as lists of characters. -/
abbrev LC := List Char

/-- Embed a Lean string literal as a `LC`. -/
def S (s : String) : LC := s.data

/-- The ten ASCII decimal digits: the characters matched by `\d`. -/
def digChars : LC := S "0123456789"

/-- ASCII whitespace: the characters matched by `\s` and stripped by `str.strip()`. -/
def wsChars : LC := [' ', '\t', '\n', '\x0d', '\x0b', '\x0c']

/-- `c` is an ASCII decimal digit. -/
def isDig (c : Char) : Bool := '0' ≤ c && c ≤ '9'

/-- `c` is ASCII whitespace. -/
def isWs (c : Char) : Bool := wsChars.contains c

/-- Python `str.strip()`: remove leading and trailing whitespace. -/
def pyStrip (s : LC) : LC :=
  ((s.dropWhile isWs).reverse.dropWhile isWs).reverse

/-- Python `str.lower()` (ASCII case folding; the repository's keyword data
is already lower-case, so only the ASCII range matters here). -/
def pyLower (s : LC) : LC := s.map Char.toLower

/-- Python `needle in haystack` for strings: substring containment. -/
def containsSub (hay needle : LC) : Bool :=
  match hay with
  | [] => needle.isEmpty
  | _ :: t => needle.isPrefixOf hay || containsSub t needle

/-- Python `' '.join(parts)`. -/
def joinSp (parts : List LC) : LC := List.intercalate [' '] parts

/-- Numeric value of a list of digit characters, most significant first. -/
def natOfDigits (ds : LC) : Nat :=
  ds.foldl (fun a c => 10 * a + (c.toNat - '0'.toNat)) 0

/-- Read an optional leading sign, returning the sign as an integer. -/
def readSignZ (s : LC) : ℤ × LC :=
  match s with
  | '+' :: r => (1, r)
  | '-' :: r => (-1, r)
  | r => (1, r)

/-- An exact decimal `num / 10 ^ den10`: the value of a parsed Python
float literal.  (The values arising here are short decimals, which IEEE
`float` represents up to binary rounding; the rounding itself is not
modelled.)  Kept unreduced so that the kernel can evaluate it. -/
structure PyF where
  num : ℤ
  den10 : ℕ
deriving DecidableEq, Repr

/-- The rational value of a parsed float. -/
def PyF.toRat (x : PyF) : ℚ := (x.num : ℚ) / (10 : ℚ) ^ x.den10

/-- Exponent part of the `float()` grammar after `e`/`E`. -/
def pyFloatExp (mant : PyF) (r : LC) : Option PyF :=
  let q := readSignZ r
  let ed := q.2.takeWhile isDig
  let rest := q.2.dropWhile isDig
  if ed.isEmpty || !rest.isEmpty then none
  else
    match q.1 * (natOfDigits ed : ℤ) with
    | .ofNat k => some ⟨mant.num * (10 : ℤ) ^ k, mant.den10⟩
    | .negSucc k => some ⟨mant.num, mant.den10 + (k + 1)⟩

/-- Fractional digits after an optional decimal point. -/
def fracPart (r1 : LC) : LC :=
  match r1 with
  | '.' :: r => r.takeWhile isDig
  | _ => []

/-- What remains after the integer digits, the optional point and the
fractional digits. -/
def restPart (r1 : LC) : LC :=
  match r1 with
  | '.' :: r => r.dropWhile isDig
  | _ => r1

/-- The digits-and-exponent part of the `float()` grammar, after the sign:
`ip` integer digits, `fp` fractional digits, giving the exact decimal
`sgn * (ip.fp) = sgn * digits(ip ++ fp) / 10 ^ |fp|`. -/
def pyFloatCore (t1 : LC) (sgn : ℤ) : Option PyF :=
  let ip := t1.takeWhile isDig
  let r1 := t1.dropWhile isDig
  let fp := fracPart r1
  let r2 := restPart r1
  if ip.isEmpty && fp.isEmpty then none
  else
    let mant : PyF := ⟨sgn * (natOfDigits (ip ++ fp) : ℤ), fp.length⟩
    match r2 with
    | [] => some mant
    | 'e' :: r => pyFloatExp mant r
    | 'E' :: r => pyFloatExp mant r
    | _ => none

/-- Model of Python's built-in `float()` on finite decimal literals:
optional surrounding whitespace, optional sign, digits with an optional
decimal point (at least one digit overall), and an optional exponent.
Returns `none` where `float()` raises `ValueError`.  The special values
`inf`/`nan` and underscore digit separators are not modelled. -/
def pyFloat? (s : LC) : Option PyF :=
  let p := readSignZ (pyStrip s)
  pyFloatCore p.2 p.1

/-- Decidable equality for `Except` results (not derived in core). -/
instance {e a : Type} [DecidableEq e] [DecidableEq a] : DecidableEq (Except e a) := fun x y =>
  match x, y with
  | .error u, .error v =>
      if h : u = v then .isTrue (by rw [h]) else .isFalse (by intro hh; cases hh; exact h rfl)
  | .ok u, .ok v =>
      if h : u = v then .isTrue (by rw [h]) else .isFalse (by intro hh; cases hh; exact h rfl)
  | .error _, .ok _ => .isFalse (by intro hh; cases hh)
  | .ok _, .error _ => .isFalse (by intro hh; cases hh)

/-!  ## Regex model

The AST covers exactly the constructs used by the repository's patterns:
character classes, literal words, sequencing, ordered alternation,
greedy `?`, greedy bounded repetition `{lo,hi}`, and greedy `*`/`+` of a
character class.  `cands r s` lists the prefixes of `s` matched by `r`,
in Python's backtracking priority order (greedy, leftmost alternative
first); the head is the match `re.search`/`re.findall` commits to. -/

inductive RE where
  | cls (cs : LC)
  | lit (l : LC)
  | seq (a b : RE)
  | alt (a b : RE)
  | opt (a : RE)
  | rep (a : RE) (lo hi : Nat)
  | starCls (cs : LC)
  | plusCls (cs : LC)
deriving Repr, DecidableEq

/-- Prefixes of `s` reachable by matching `f` exactly `n` times in sequence,
in priority order. -/
def candsPow (f : LC → List LC) : Nat → LC → List LC
  | 0, _ => [[]]
  | n + 1, s =>
      (f s).flatMap fun p => (candsPow f n (s.drop p.length)).map fun q => p ++ q

/-- All prefixes of `s` matched by `r`, in Python's backtracking priority
order (first element = the committed match). -/
def cands : RE → LC → List LC
  | .cls cs, s =>
      match s with
      | [] => []
      | c :: _ => if cs.contains c then [[c]] else []
  | .lit l, s => if l.isPrefixOf s then [l] else []
  | .seq a b, s =>
      (cands a s).flatMap fun p => (cands b (s.drop p.length)).map fun q => p ++ q
  | .alt a b, s => cands a s ++ cands b s
  | .opt a, s => cands a s ++ [[]]
  | .rep a lo hi, s =>
      (List.range (hi + 1 - lo)).flatMap fun i => candsPow (cands a) (hi - i) s
  | .starCls cs, s =>
      let run := s.takeWhile cs.contains
      (List.range (run.length + 1)).map fun i => run.take (run.length - i)
  | .plusCls cs, s =>
      let run := s.takeWhile cs.contains
      (List.range run.length).map fun i => run.take (run.length - i)

/-- Declarative language of a regex (independent of the matcher). -/
def Matches : RE → LC → Prop
  | .cls cs, s => ∃ c, s = [c] ∧ cs.contains c = true
  | .lit l, s => s = l
  | .seq a b, s => ∃ u v, s = u ++ v ∧ Matches a u ∧ Matches b v
  | .alt a b, s => Matches a s ∨ Matches b s
  | .opt a, s => Matches a s ∨ s = []
  | .rep a lo hi, s =>
      ∃ parts : List LC, lo ≤ parts.length ∧ parts.length ≤ hi ∧
        s = parts.flatten ∧ ∀ p ∈ parts, Matches a p
  | .starCls cs, s => ∀ c ∈ s, cs.contains c = true
  | .plusCls cs, s => s ≠ [] ∧ ∀ c ∈ s, cs.contains c = true

/-- Python `re.search(r, s)`: the leftmost match, greedy within a start
position; `none` when no position matches.  (Returns the matched text,
i.e. `group(0)`.) -/
def reSearch (r : RE) : LC → Option LC
  | [] => (cands r []).head?
  | c :: t =>
      match (cands r (c :: t)).head? with
      | some p => some p
      | none => reSearch r t

/-- Scanner of `findall`: fuel counts remaining start positions (one
unit per character suffices, since every step consumes at least one
character). -/
def findallAux (r : RE) : Nat → LC → List LC
  | 0, _ => []
  | _, [] => []
  | fuel + 1, c :: t =>
      match (cands r (c :: t)).head? with
      | some p =>
          if p.isEmpty then p :: findallAux r fuel t
          else p :: findallAux r fuel ((c :: t).drop p.length)
      | none => findallAux r fuel t

/-- Python `re.findall(r, s)` for patterns without capture groups:
non-overlapping matches scanned left to right.  (The repository's
patterns never match the empty string; the guard for an empty match
advances one character, mirroring Python's behaviour.) -/
def findall (r : RE) (s : LC) : List LC := findallAux r s.length s

/-! ## Core extractor (`core.py`)

`tabula.read_pdf` is the out-of-scope engine; it is abstracted as a
function from the mode flag to either an engine error or a list of raw
tables.  A table is a list of rows; a cell is `none` for a missing
(`NaN`) value and otherwise the cell's text (after Python's `str()`). -/

/-- A table cell: `none` models a `NaN`/missing value. -/
abbrev Cell := Option LC

/-- A raw table: an ordered list of rows of cells. -/
abbrev DF := List (List Cell)

/-- The three heuristic extraction modes, in their fixed trial order. -/
inductive Mode where
  | lattice
  | stream
  | guess
deriving DecidableEq, Repr

/-- The fixed trial order of `PDFTableExtractor.extract_tables`. -/
def modeOrder : List Mode := [.lattice, .stream, .guess]

/-- Trial position of a mode in the fixed order. -/
def modeIdx : Mode → Nat
  | .lattice => 0
  | .stream => 1
  | .guess => 2

/-- `PDFTableExtractor.extract_tables`: try the three modes in order;
an engine error discards the attempt (`except Exception: continue`); a
non-empty list of tables is concatenated (`pd.concat`, row counts add);
the attempt with strictly more rows than any earlier one becomes the
best; `(None, None)` when nothing qualifies. -/
def extract_tables (engine : Mode → Except Unit (List DF)) : Option DF × Option Mode :=
  let step : (Option DF × Option Mode × Nat) → Mode → (Option DF × Option Mode × Nat) :=
    fun st m =>
      match engine m with
      | .error _ => st
      | .ok tables =>
          if tables.isEmpty then st
          else
            let combined := tables.flatten
            if combined.length > st.2.2 then (some combined, some m, combined.length)
            else st
  let fin := modeOrder.foldl step (none, none, 0)
  (fin.1, fin.2.1)

/-- Row count an attempt contributes: `0` for an engine error, an empty
table list, or a concatenation with no rows. -/
def rowCount (engine : Mode → Except Unit (List DF)) (m : Mode) : Nat :=
  match engine m with
  | .error _ => 0
  | .ok tables => if tables.isEmpty then 0 else tables.flatten.length

/-- The mode `extract_tables`'s strict-improvement rule selects: the
earliest mode (in the fixed order) with the maximal row count. -/
def bestMode (r : Mode → Nat) : Mode :=
  (modeOrder.tail).foldl (fun acc m => if r m > r acc then m else acc) .lattice

/-! ## Locale registry (`locale_detector.py`) -/

/-- Embeds the `LocaleConfig` dataclass.  Regex pattern strings become
`RE` values; the separators are single characters in every registry
entry (and per the spec). -/
structure LocaleConfig where
  code : LC
  name : LC
  date_patterns : List RE
  amount_patterns : List RE
  decimal_separator : Char
  thousands_separator : Char
  keywords : List LC
deriving DecidableEq

/-- `[+-]?` -/
def signOpt : RE := .opt (.cls ['+', '-'])

/-- `\s*` -/
def wsStar : RE := .starCls wsChars

/-- `\s+` -/
def wsPlus : RE := .plusCls wsChars

/-- `\d{n,m}` -/
def digRep (lo hi : Nat) : RE := .rep (.cls digChars) lo hi

/-- `\d+` -/
def digPlus : RE := .plusCls digChars

/-- Ordered alternation of literal words, as in `(?:w1|w2|…)`. -/
def altLits : List LC → RE
  | [] => .lit []
  | [w] => .lit w
  | w :: ws => .alt (.lit w) (altLits ws)

/-- Chain a pattern list into a sequence. -/
def seqAll : List RE → RE
  | [] => .lit []
  | [r] => r
  | r :: rs => .seq r (seqAll rs)

/-- `\d{1,2}/\d{1,2}/\d{4}` -/
def dmySlash : RE := seqAll [digRep 1 2, .cls ['/'], digRep 1 2, .cls ['/'], digRep 4 4]

/-- `\d{1,2}\.\d{1,2}\.\d{4}` -/
def dmyDot : RE := seqAll [digRep 1 2, .cls ['.'], digRep 1 2, .cls ['.'], digRep 4 4]

/-- `\d{4}-\d{1,2}-\d{1,2}` -/
def ymdDash : RE := seqAll [digRep 4 4, .cls ['-'], digRep 1 2, .cls ['-'], digRep 1 2]

/-- `\d{1,2}\s+(?:months)\s+\d{4}` -/
def dayMonthYear (months : List LC) : RE :=
  seqAll [digRep 1 2, wsPlus, altLits months, wsPlus, digRep 4 4]

/-- The `'fr'` entry of `LOCALES`. -/
def frConfig : LocaleConfig where
  code := S "fr"
  name := S "French"
  date_patterns :=
    [dmySlash, dmyDot,
     dayMonthYear ([S "janvier", S "février", S "mars", S "avril", S "mai", S "juin",
       S "juillet", S "août", S "septembre", S "octobre", S "novembre", S "décembre"])]
  amount_patterns :=
    [seqAll [signOpt, wsStar, digPlus, .cls (wsChars ++ [',']), digRep 2 2, wsStar, .opt (.cls ['€'])],
     seqAll [signOpt, wsStar, digPlus, .cls [','], digRep 2 2, wsStar, .lit (S "EUR")]]
  decimal_separator := ','
  thousands_separator := ' '
  keywords :=
    [S "solde", S "crédit", S "débit", S "virement", S "prélèvement",
     S "montant", S "date", S "opération", S "facture", S "relevé",
     S "janvier", S "février", S "mars", S "avril", S "mai", S "juin",
     S "juillet", S "août", S "septembre", S "octobre", S "novembre", S "décembre"]

/-- The `'de'` entry of `LOCALES`. -/
def deConfig : LocaleConfig where
  code := S "de"
  name := S "German"
  date_patterns :=
    [dmyDot, dmySlash,
     dayMonthYear ([S "Januar", S "Februar", S "März", S "April", S "Mai", S "Juni",
       S "Juli", S "August", S "September", S "Oktober", S "November", S "Dezember"])]
  amount_patterns :=
    [seqAll [signOpt, wsStar, digPlus, .cls ['.', ','], digRep 3 3, .cls ['.', ','], digRep 2 2],
     seqAll [signOpt, wsStar, digPlus, .cls [','], digRep 2 2, wsStar, .opt (.cls ['€'])],
     seqAll [signOpt, wsStar, digPlus, .cls [','], digRep 2 2, wsStar, .lit (S "EUR")]]
  decimal_separator := ','
  thousands_separator := '.'
  keywords :=
    [S "saldo", S "kredit", S "lastschrift", S "überweisung", S "betrag",
     S "datum", S "buchung", S "rechnung", S "kontoauszug",
     S "januar", S "februar", S "märz", S "april", S "mai", S "juni",
     S "juli", S "august", S "september", S "oktober", S "november", S "dezember"]

/-- The `'en'` entry of `LOCALES`. -/
def enConfig : LocaleConfig where
  code := S "en"
  name := S "English"
  date_patterns :=
    [dmySlash, ymdDash,
     dayMonthYear ([S "January", S "February", S "March", S "April", S "May", S "June",
       S "July", S "August", S "September", S "October", S "November", S "December"])]
  amount_patterns :=
    [seqAll [signOpt, wsStar, .opt (.cls ['$']), digPlus, .cls [','], digRep 3 3, .cls ['.'], digRep 2 2],
     seqAll [signOpt, wsStar, digPlus, .cls ['.'], digRep 2 2, wsStar,
       .opt (altLits [S "USD", S "EUR", S "GBP"])]]
  decimal_separator := '.'
  thousands_separator := ','
  keywords :=
    [S "balance", S "credit", S "debit", S "transfer", S "payment",
     S "amount", S "date", S "transaction", S "invoice", S "statement",
     S "january", S "february", S "march", S "april", S "may", S "june",
     S "july", S "august", S "september", S "october", S "november", S "december"]

/-- The `LOCALES` registry, in Python dict insertion order. -/
def LOCALES : List (LC × LocaleConfig) :=
  [(S "fr", frConfig), (S "de", deConfig), (S "en", enConfig)]

/-- `LOCALES.get(code)`: association-list lookup. -/
def lookupLocale (code : LC) : Option LocaleConfig :=
  (LOCALES.find? (fun p => p.1 = code)).map Prod.snd

/-- The registry's key list. -/
def localeCodes : List LC := LOCALES.map Prod.fst

/-! ## Locale detector -/

/-- Embeds a constructed `LocaleDetector` (its only state). -/
structure LocaleDetector where
  default_locale : LC

/-- `LocaleDetector.__init__`: raises `ValueError` on a code outside the
registry, otherwise stores it. -/
def mkLocaleDetector (default_locale : LC) : Except LC LocaleDetector :=
  if default_locale ∈ localeCodes then .ok ⟨default_locale⟩
  else .error (S "Unknown locale")

/-- The filename indicator table of `detect_from_filename`, in Python
dict insertion order. -/
def langIndicators : List (LC × List LC) :=
  [(S "fr", [S "_fr", S "-fr", S "french", S "francais", S "français", S "france"]),
   (S "de", [S "_de", S "-de", S "german", S "deutsch", S "deutschland", S "germany"]),
   (S "en", [S "_en", S "-en", S "english", S "uk", S "usa", S "us"])]

/-- `LocaleDetector.detect_from_filename`: first locale (in table order)
one of whose indicators occurs in the lower-cased filename. -/
def detect_from_filename (filename : LC) : Option LC :=
  let fl := pyLower filename
  (langIndicators.find? (fun p => p.2.any (fun ind => containsSub fl ind))).map Prod.fst

/-- Whether a table counts as empty (`df is None or df.empty`): no rows,
or rows with no columns. -/
def dfEmpty (df : DF) : Bool := df.isEmpty || df.all List.isEmpty

/-- The text blob of `detect_from_content`: all non-missing cells,
lower-cased, joined with single spaces. -/
def contentBlob (df : DF) : LC :=
  joinSp ((df.flatten.filterMap id).map pyLower)

/-- A keyword score, kept as the exact fraction (matched, total): the
Python code computes the float `matched / total`.  Registry keyword
lists are non-empty, so the comparisons below (cross-multiplication)
agree with the float comparisons up to binary rounding, which is not
modelled. -/
abbrev Score := ℕ × ℕ

/-- The rational value of a score. -/
def Score.toRat (s : Score) : ℚ := (s.1 : ℚ) / (s.2 : ℚ)

/-- Exact comparison `a > b` of two scores. -/
def scoreGt (a b : Score) : Bool := a.1 * b.2 > b.1 * a.2

/-- Keyword score of one locale against a text blob: matched keywords
over total keywords. -/
def scoreOf (df : DF) (cfg : LocaleConfig) : Score :=
  let text := contentBlob df
  ((cfg.keywords.filter (fun kw => containsSub text (pyLower kw))).length,
    cfg.keywords.length)

/-- `LocaleDetector.detect_from_content`: keyword-frequency locale
detection.  Python's `max(scores, key=scores.get)` keeps the earliest
key on ties; the result is `(None, confidence)` below the fixed 0.3
threshold. -/
def detect_from_content (df : DF) : Option LC × Score :=
  if dfEmpty df then (none, (0, 1))
  else if (contentBlob df).isEmpty then (none, (0, 1))
  else
    let best := (LOCALES.tail).foldl
      (fun acc p => if scoreGt (scoreOf df p.2) (scoreOf df acc.2) then p else acc)
      (S "fr", frConfig)
    let confidence := scoreOf df best.2
    -- `confidence >= 0.3` exactly: `10 * matched ≥ 3 * total`
    if 10 * confidence.1 ≥ 3 * confidence.2 then (some best.1, confidence)
    else (none, confidence)

/-- Python `f'{q:.2%}'` for a nonnegative score `c / t`: multiply by 100,
round to two decimals (ties to even, the rounding of Python's
fixed-precision formatting on exactly-representable values), append `%`. -/
def fmtPct (sc : Score) : LC :=
  let N := 10000 * sc.1
  let f := N / sc.2
  let r := N % sc.2
  let n := if 2 * r < sc.2 then f
    else if 2 * r > sc.2 then f + 1
    else if f % 2 = 0 then f else f + 1
  let fr := Nat.toDigits 10 (n % 100)
  Nat.toDigits 10 (n / 100) ++ ['.'] ++ (if n % 100 < 10 then '0' :: fr else fr) ++ ['%']

/-- `LocaleDetector.detect_locale`: the four signals in strict priority
order, short-circuiting.  An explicit locale outside the registry falls
through with only a printed warning (`''` is falsy in Python and also
outside the registry, so the value-level behaviour coincides).  A
content win's method string carries the formatted confidence. -/
def detect_locale (d : LocaleDetector) (filename : LC) (df : Option DF)
    (explicit_locale : Option LC) : LC × LC :=
  match explicit_locale with
  | some e =>
      if e ∈ localeCodes then (e, S "explicit")
      else detectFallback d filename df
  | none => detectFallback d filename df
where
  /-- Steps 2–4 of `detect_locale` (filename, content, default). -/
  detectFallback (d : LocaleDetector) (filename : LC) (df : Option DF) : LC × LC :=
    match detect_from_filename filename with
    | some l => (l, S "filename")
    | none =>
        match df with
        | some t =>
            match detect_from_content t with
            | (some l, confidence) =>
                (l, S "content (confidence: " ++ fmtPct confidence ++ [')'])
            | (none, _) => (d.default_locale, S "default")
        | none => (d.default_locale, S "default")

/-- `LocaleDetector.get_config`: registry lookup with silent fallback to
the default locale's entry; `none` models the `KeyError` that an invalid
stored default would raise (unreachable through the constructor). -/
def get_config (d : LocaleDetector) (locale : LC) : Option LocaleConfig :=
  match lookupLocale locale with
  | some c => some c
  | none => lookupLocale d.default_locale

/-! ## Amount and date normalizers -/

/-- Remove every occurrence of `EUR|USD|GBP|CHF`, case-insensitively
(`re.sub` with `IGNORECASE`): scan left to right, skip a matched code,
keep other characters. -/
def removeCodes : LC → LC
  | [] => []
  | [c] => [c]
  | [c, d] => [c, d]
  | c :: d :: e :: rest =>
      -- `(c :: …).take 3 = [c, d, e]`; on a shorter list the lowered
      -- prefix can never equal a three-letter code, so nothing is removed
      if pyLower [c, d, e] ∈ [S "eur", S "usd", S "gbp", S "chf"] then removeCodes rest
      else c :: removeCodes (d :: e :: rest)

/-- `clean_amount` (with a resolved `LocaleConfig`): currency stripping,
space removal, locale separator handling, `+` removal, float conversion.
`none` models Python's `None`/`NaN` input. -/
def clean_amount (text : Option LC) (locale_config : LocaleConfig) : Option PyF :=
  match text with
  | none => none
  | some t0 =>
      if t0.isEmpty then none
      else
        let t1 := pyStrip t0
        let t2 := t1.filter (fun c => c ∉ ['€', '$', '£', '¥'])
        let t3 := removeCodes t2
        let t4 := t3.filter (fun c => c ≠ ' ')
        let t5 :=
          if locale_config.decimal_separator = ',' then
            (t4.filter (fun c => c ≠ locale_config.thousands_separator)).map
              (fun c => if c = ',' then '.' else c)
          else
            t4.filter (fun c => c ≠ locale_config.thousands_separator)
        let t6 := t5.filter (fun c => c ≠ '+')
        pyFloat? t6

/-- `clean_amount`'s Python entry point also accepts a locale code and
resolves it with fallback to `'fr'`. -/
def cleanAmountByCode (text : Option LC) (locale : LC) : Option PyF :=
  clean_amount text ((lookupLocale locale).getD frConfig)

/-- `parse_date` (the spec's `extract_date`): try the locale's date
patterns in list order; return the first pattern's leftmost match. -/
def parse_date (text : Option LC) (locale_config : LocaleConfig) : Option LC :=
  match text with
  | none => none
  | some t0 =>
      if t0.isEmpty then none
      else
        let t := pyStrip t0
        locale_config.date_patterns.firstM (fun pat => reSearch pat t)

/-! ## Bank statement parser (`parsers.py`) -/

/-- `\d{1,2}/\d{1,2}/\d{4}` of `bank_statement_parser`. -/
def dateRE : RE := dmySlash

/-- `[+-]?\s*\d+[,\s]\d{2}` of `bank_statement_parser`. -/
def amtRE : RE :=
  seqAll [signOpt, wsStar, digPlus, .cls (',' :: wsChars), digRep 2 2]

/-- One transaction record. -/
structure Tx where
  date : LC
  description : LC
  amount : PyF
  source : LC
deriving Repr, DecidableEq

/-- The joined row string: non-missing cells joined with single spaces. -/
def rowStr (row : List Cell) : LC := joinSp (row.filterMap id)

/-- The amount cleanup of the parser: `.replace(' ', '').replace(',', '.')`. -/
def transformAmt (s : LC) : LC :=
  (s.filter (fun c => c ≠ ' ')).map (fun c => if c = ',' then '.' else c)

/-- The loop body of `bank_statement_parser` for a single row: `ok none`
when the row does not qualify, `ok (some tx)` when it qualifies and the
float conversion succeeds, `error` when `float()` raises. -/
def processRow (row : List Cell) (filename : LC) : Except Unit (Option Tx) :=
  let s := rowStr row
  let dates := findall dateRE s
  let amounts := findall amtRE s
  if dates.isEmpty || amounts.isEmpty then .ok none
  else
    match pyFloat? (transformAmt (amounts.getLastD [])) with
    | none => .error ()
    | some v => .ok (some { date := dates.headD [], description := s, amount := v, source := filename })

/-- `bank_statement_parser`: scan rows in order, accumulate transactions,
propagate a `float()` error; `ok none` (Python `None`) when no row
qualifies, otherwise the non-empty transaction list. -/
def bankStatementParser (df : DF) (filename : LC) : Except Unit (Option (List Tx)) :=
  match go df with
  | .error e => .error e
  | .ok txs => if txs.isEmpty then .ok none else .ok (some txs)
where
  /-- The row loop, returning the accumulated transactions in row order. -/
  go : DF → Except Unit (List Tx)
    | [] => .ok []
    | row :: rest =>
        match processRow row (filename) with
        | .error e => .error e
        | .ok none => go rest
        | .ok (some tx) =>
            match go rest with
            | .error e => .error e
            | .ok txs => .ok (tx :: txs)


/-! ## Helper lemmas -/

/-- The spec's wording of the amount pipeline (§4.3, claim C3): identical
to `clean_amount` except that only *leading* plus signs are stripped.
Modelled from the spec: "Strip leading plus signs (minus signs are
preserved …)". -/
def cleanAmountSpec (text : Option LC) (locale_config : LocaleConfig) : Option PyF :=
  match text with
  | none => none
  | some t0 =>
      if t0.isEmpty then none
      else
        let t1 := pyStrip t0
        let t2 := t1.filter (fun c => c ∉ ['€', '$', '£', '¥'])
        let t3 := removeCodes t2
        let t4 := t3.filter (fun c => c ≠ ' ')
        let t5 :=
          if locale_config.decimal_separator = ',' then
            (t4.filter (fun c => c ≠ locale_config.thousands_separator)).map
              (fun c => if c = ',' then '.' else c)
          else
            t4.filter (fun c => c ≠ locale_config.thousands_separator)
        let t6 := t5.dropWhile (fun c => c = '+')
        pyFloat? t6

/-- `pyStrip` only removes characters. -/
lemma pyStrip_sublist (s : LC) : List.Sublist (pyStrip s) s := by
  unfold pyStrip
  have h1 : List.Sublist (s.dropWhile isWs) s := List.dropWhile_sublist _
  have h2 : List.Sublist ((s.dropWhile isWs).reverse.dropWhile isWs)
      (s.dropWhile isWs).reverse := List.dropWhile_sublist _
  have h3 := h2.reverse
  simp only [List.reverse_reverse] at h3
  exact h3.trans h1

/-- `removeCodes` only removes characters. -/
lemma mem_removeCodes : ∀ (s : LC), ∀ c ∈ removeCodes s, c ∈ s
  | [] => by simp [removeCodes]
  | [c] => by simp [removeCodes]
  | [c, d] => by simp [removeCodes]
  | c :: d :: e :: rest => by
      intro x hx
      rw [removeCodes] at hx
      by_cases hcond : pyLower [c, d, e] ∈ [S "eur", S "usd", S "gbp", S "chf"]
      · rw [if_pos hcond] at hx
        have hr := mem_removeCodes rest x hx
        exact List.mem_cons_of_mem _ (List.mem_cons_of_mem _ (List.mem_cons_of_mem _ hr))
      · rw [if_neg hcond] at hx
        rcases List.mem_cons.mp hx with h1 | h1
        · exact h1 ▸ List.mem_cons_self _ _
        · exact List.mem_cons_of_mem _ (mem_removeCodes (d :: e :: rest) x h1)

/-- `readSignZ` returns a suffix of its input. -/
lemma readSign_snd_sublist (t : LC) : List.Sublist (readSignZ t).2 t := by
  unfold readSignZ
  split
  · exact List.sublist_cons_self _ _
  · exact List.sublist_cons_self _ _
  · exact List.Sublist.refl _

/-- `takeWhile` of a list none of whose elements satisfies the predicate. -/
lemma takeWhile_eq_nil_of (p : Char → Bool) (l : LC) (h : ∀ c ∈ l, p c = false) :
    l.takeWhile p = [] := by
  cases l with
  | nil => rfl
  | cons a r => simp [List.takeWhile, h a (List.mem_cons_self _ _)]

/-- `dropWhile` of a list none of whose elements satisfies the predicate. -/
lemma dropWhile_eq_self_of (p : Char → Bool) (l : LC) (h : ∀ c ∈ l, p c = false) :
    l.dropWhile p = l := by
  cases l with
  | nil => rfl
  | cons a r => simp [List.dropWhile, h a (List.mem_cons_self _ _)]

/-- `fracPart` of a digit-free string is empty. -/
lemma fracPart_eq_nil (r1 : LC) (h : ∀ c ∈ r1, isDig c = false) : fracPart r1 = [] := by
  unfold fracPart
  split
  · rename_i r
    exact takeWhile_eq_nil_of _ _ (fun c hc => h c (List.mem_cons_of_mem _ hc))
  · rfl

/-- A string with no decimal digit is rejected by `pyFloatCore`. -/
lemma pyFloatCore_eq_none_of_noDigit (t1 : LC) (sgn : ℤ)
    (h : ∀ c ∈ t1, isDig c = false) : pyFloatCore t1 sgn = none := by
  have h1 : t1.takeWhile isDig = [] := takeWhile_eq_nil_of _ _ h
  have h2 : t1.dropWhile isDig = t1 := dropWhile_eq_self_of _ _ h
  have h3 : fracPart (t1.dropWhile isDig) = [] := by
    rw [h2]; exact fracPart_eq_nil _ h
  simp [pyFloatCore, h1, h3]

/-- A string with no decimal digit is rejected by `pyFloat?`. -/
lemma pyFloat?_eq_none_of_noDigit (s : LC) (h : ∀ c ∈ s, isDig c = false) :
    pyFloat? s = none := by
  unfold pyFloat?
  apply pyFloatCore_eq_none_of_noDigit
  intro c hc
  exact h c ((pyStrip_sublist s).subset (((readSign_snd_sublist _).subset) hc))

/-- On input with no decimal digit, `clean_amount` yields null for every
locale config: no pipeline step introduces a digit, and `float()` rejects
digit-free strings. -/
lemma clean_amount_noDigit (t0 : LC) (cfg : LocaleConfig)
    (h0 : t0 ≠ []) (h : ∀ c ∈ t0, isDig c = false) :
    clean_amount (some t0) cfg = none := by
  have he : t0.isEmpty = false := by
    cases t0
    · simp at h0
    · rfl
  unfold clean_amount
  simp only [he, Bool.false_eq_true, if_false]
  apply pyFloat?_eq_none_of_noDigit
  intro c hc
  have hc5 := (List.mem_filter.mp hc).1
  by_cases hd : cfg.decimal_separator = ','
  · rw [if_pos hd] at hc5
    obtain ⟨d, hd1, hd2⟩ := List.mem_map.mp hc5
    have hd3 := (List.mem_filter.mp hd1).1
    have hd4 := (List.mem_filter.mp hd3).1
    have hd5 := mem_removeCodes _ d hd4
    have hd6 := (List.mem_filter.mp hd5).1
    have hd7 : d ∈ t0 := (pyStrip_sublist t0).subset hd6
    have hdig : isDig d = false := h d hd7
    subst hd2
    by_cases hcm : d = ','
    · rw [if_pos hcm]; decide
    · rw [if_neg hcm]; exact hdig
  · rw [if_neg hd] at hc5
    have hd3 := (List.mem_filter.mp hc5).1
    have hd4 := (List.mem_filter.mp hd3).1
    have hd5 := mem_removeCodes _ c hd4
    have hd6 := (List.mem_filter.mp hd5).1
    exact h c ((pyStrip_sublist t0).subset hd6)

/-! ## Claim C3: `clean_amount` pipeline -/

/-- C3 counterexample: the code removes *every* plus sign
(`text.replace('+', '')`), not only leading ones as the spec's pipeline
states.  On the input `"+1+1"` with the French config the code yields
`11.0`, while the spec's pipeline (`cleanAmountSpec`, which strips only
leading plus signs and is otherwise identical) leaves `"1+1"` behind and
yields null. -/
theorem C3_counterexample :
    (clean_amount (some (S "+1+1")) frConfig).map PyF.toRat = some (11 : ℚ) ∧
    cleanAmountSpec (some (S "+1+1")) frConfig = none := by
  constructor
  · have h : clean_amount (some (S "+1+1")) frConfig = some ⟨11, 0⟩ := by decide
    rw [h]
    show some (PyF.toRat ⟨11, 0⟩) = some (11 : ℚ)
    norm_num [PyF.toRat]
  · decide

/-- C3 amended: `clean_amount` applies the stated pipeline with *all*
plus signs removed (not only leading ones); the spec's worked examples
hold, a minus sign is preserved, empty or missing input yields null for
every config, and a digit-free string yields null for every config —
conversion failure never escapes as an exception. -/
theorem C3_clean_amount :
    (clean_amount (some (S "1 234,56")) frConfig).map PyF.toRat = some (1234.56 : ℚ) ∧
    (clean_amount (some (S "1.234,56")) deConfig).map PyF.toRat = some (1234.56 : ℚ) ∧
    (clean_amount (some (S "1,234.56")) enConfig).map PyF.toRat = some (1234.56 : ℚ) ∧
    (clean_amount (some (S "-1,50")) frConfig).map PyF.toRat = some (-1.5 : ℚ) ∧
    (clean_amount (some (S "+1,50")) frConfig).map PyF.toRat = some (1.5 : ℚ) ∧
    (clean_amount (some (S "+1+1")) frConfig).map PyF.toRat = some (11 : ℚ) ∧
    (∀ cfg : LocaleConfig, clean_amount none cfg = none) ∧
    (∀ cfg : LocaleConfig, clean_amount (some []) cfg = none) ∧
    (∀ cfg : LocaleConfig, clean_amount (some (S "abc")) cfg = none) := by
  refine ⟨?_, ?_, ?_, ?_, ?_, ?_, fun cfg => rfl,
    fun cfg => by simp [clean_amount],
    fun cfg => clean_amount_noDigit (S "abc") cfg (by decide) (by decide)⟩
  · have h : clean_amount (some (S "1 234,56")) frConfig = some ⟨123456, 2⟩ := by decide
    rw [h]; show some (PyF.toRat ⟨123456, 2⟩) = _; norm_num [PyF.toRat]
  · have h : clean_amount (some (S "1.234,56")) deConfig = some ⟨123456, 2⟩ := by decide
    rw [h]; show some (PyF.toRat ⟨123456, 2⟩) = _; norm_num [PyF.toRat]
  · have h : clean_amount (some (S "1,234.56")) enConfig = some ⟨123456, 2⟩ := by decide
    rw [h]; show some (PyF.toRat ⟨123456, 2⟩) = _; norm_num [PyF.toRat]
  · have h : clean_amount (some (S "-1,50")) frConfig = some ⟨-150, 2⟩ := by decide
    rw [h]; show some (PyF.toRat ⟨-150, 2⟩) = _; norm_num [PyF.toRat]
  · have h : clean_amount (some (S "+1,50")) frConfig = some ⟨150, 2⟩ := by decide
    rw [h]; show some (PyF.toRat ⟨150, 2⟩) = _; norm_num [PyF.toRat]
  · have h : clean_amount (some (S "+1+1")) frConfig = some ⟨11, 0⟩ := by decide
    rw [h]; show some (PyF.toRat ⟨11, 0⟩) = _; norm_num [PyF.toRat]

/-- C3 amended, witnessed at a concrete config. -/
theorem C3_clean_amount_witness :
    clean_amount (some (S "abc")) enConfig = none :=
  C3_clean_amount.2.2.2.2.2.2.2.2 enConfig

/-- An unknown code finds nothing in the registry. -/
lemma lookupLocale_eq_none (loc : LC) (h : loc ∉ localeCodes) : lookupLocale loc = none := by
  have h1 : ¬(S "fr" = loc) := fun hh => h (by rw [← hh]; decide)
  have h2 : ¬(S "de" = loc) := fun hh => h (by rw [← hh]; decide)
  have h3 : ¬(S "en" = loc) := fun hh => h (by rw [← hh]; decide)
  simp [lookupLocale, LOCALES, List.find?_cons, h1, h2, h3]

/-! ## Claim C6: `parse_date` pattern order -/

/-- `firstM` over `Option` yields `none` when every element fails. -/
lemma firstM_eq_none (l : List RE) (t : LC)
    (h : ∀ p ∈ l, reSearch p t = none) :
    l.firstM (fun pat => reSearch pat t) = none := by
  induction l with
  | nil => rfl
  | cons p ps ih =>
      have hp : reSearch p t = none := h p (List.mem_cons_self _ _)
      have hrest := ih (fun q hq => h q (List.mem_cons_of_mem _ hq))
      simp [List.firstM, hp, hrest, Option.orElse]

/-- C6: `parse_date` tries the locale's date patterns in list order and
returns the first pattern's leftmost match — the head pattern wins
whenever it matches anywhere, regardless of later patterns; `none` when
no pattern matches; the spec's two examples hold, the no-date example
for each registry config. -/
theorem C6_parse_date :
    (∀ (t : LC) (cfg : LocaleConfig) (p : RE) (ps : List RE) (m : LC),
        t ≠ [] → cfg.date_patterns = p :: ps → reSearch p (pyStrip t) = some m →
        parse_date (some t) cfg = some m) ∧
    (∀ (t : LC) (cfg : LocaleConfig),
        (∀ p ∈ cfg.date_patterns, reSearch p (pyStrip t) = none) →
        parse_date (some t) cfg = none) ∧
    (∀ cfg : LocaleConfig, parse_date none cfg = none) ∧
    parse_date (some (S "Paid on 15/01/2024 thanks")) frConfig = some (S "15/01/2024") ∧
    (∀ cfg ∈ [frConfig, deConfig, enConfig],
        parse_date (some (S "no date here")) cfg = none) := by
  refine ⟨?_, ?_, fun cfg => rfl, by decide, by decide⟩
  · intro t cfg p ps m ht hpat hsearch
    have he : t.isEmpty = false := by
      rcases t with _ | ⟨a, r⟩
      · simp at ht
      · rfl
    simp only [parse_date, he, Bool.false_eq_true, if_false]
    rw [hpat]
    simp [List.firstM, hsearch, Option.orElse]
  · intro t cfg h
    rcases ht : t with _ | ⟨a, r⟩
    · rfl
    · have he : t.isEmpty = false := by rw [ht]; rfl
      rw [← ht]
      simp only [parse_date, he, Bool.false_eq_true, if_false]
      exact firstM_eq_none _ _ h

/-- C6, witnessed: the head pattern of the French config matching
`"a 1/2/2024"` decides the result. -/
theorem C6_parse_date_witness :
    parse_date (some (S "a 1/2/2024")) frConfig = some (S "1/2/2024") :=
  C6_parse_date.1 (S "a 1/2/2024") frConfig dmySlash
    (frConfig.date_patterns.tail) (S "1/2/2024") (by decide) (by decide) (by decide)

/-! ## Claim C10: `get_config` total fallback -/

/-- C10: for a code outside the registry, `get_config` silently falls
back to the stored default locale's configuration — it never raises and
never yields null for a detector built by the constructor — while the
constructor itself is fatal (an error) exactly on unknown codes. -/
theorem C10_get_config :
    (∀ (d : LocaleDetector) (loc : LC), loc ∉ localeCodes →
        get_config d loc = lookupLocale d.default_locale) ∧
    (∀ (dl : LC) (d : LocaleDetector), mkLocaleDetector dl = .ok d →
        ∃ c, lookupLocale d.default_locale = some c) ∧
    (∀ dl : LC, dl ∉ localeCodes → mkLocaleDetector dl = .error (S "Unknown locale")) := by
  refine ⟨?_, ?_, ?_⟩
  · intro d loc h
    unfold get_config
    rw [lookupLocale_eq_none loc h]
  · intro dl d h
    unfold mkLocaleDetector at h
    by_cases hm : dl ∈ localeCodes
    · rw [if_pos hm] at h
      cases h
      rcases List.mem_cons.mp hm with h1 | h1
      · exact ⟨frConfig, by rw [h1]; decide⟩
      · rcases List.mem_cons.mp h1 with h2 | h2
        · exact ⟨deConfig, by rw [h2]; decide⟩
        · rcases List.mem_cons.mp h2 with h3 | h3
          · exact ⟨enConfig, by rw [h3]; decide⟩
          · simp at h3
    · rw [if_neg hm] at h
      cases h
  · intro dl h
    unfold mkLocaleDetector
    rw [if_neg h]

/-- C10, witnessed: the unknown code `"xx"` resolves to the French
default's configuration, and `"xx"` as a constructor default is fatal. -/
theorem C10_get_config_witness :
    get_config ⟨S "fr"⟩ (S "xx") = lookupLocale (S "fr") ∧
    mkLocaleDetector (S "xx") = .error (S "Unknown locale") :=
  ⟨C10_get_config.1 ⟨S "fr"⟩ (S "xx") (by decide),
   C10_get_config.2.2 (S "xx") (by decide)⟩

/-! ## Claim C8: empty-transaction outcome -/

/-- C8 counterexample: on a table with rows but no qualifying row, the
parser returns the bare null (`.ok none` — Python `None`), the very same
null value that `extract_tables` returns for its table component when
all modes fail; the two outcomes are not distinguishable values. -/
theorem C8_counterexample :
    bankStatementParser [[some (S "no transactions here")], [some (S "just text")]]
      (S "a.pdf") = .ok none ∧
    extract_tables (fun _ => .error ()) = (none, none) := by
  exact ⟨by decide, by decide⟩

/-- C8 amended: a table with zero qualifying rows yields Python `None` —
distinct from any zero-length transaction table, since a successful
result is always a non-empty list — but it is the same `None` value as
the no-table outcome of extraction, not a distinguishable marker. -/
theorem C8_no_transactions :
    bankStatementParser [[some (S "no transactions here")]] (S "b.pdf") = .ok none ∧
    (∀ (df : DF) (f : LC) (l : List Tx),
        bankStatementParser df f = .ok (some l) → l ≠ []) := by
  refine ⟨by decide, ?_⟩
  intro df f l h
  unfold bankStatementParser at h
  rcases hgo : bankStatementParser.go f df with e | txs
  · rw [hgo] at h
    cases h
  · rw [hgo] at h
    have h2 : (if txs.isEmpty then (Except.ok none : Except Unit (Option (List Tx)))
        else .ok (some txs)) = .ok (some l) := h
    by_cases he : txs.isEmpty
    · rw [if_pos he] at h2
      cases h2
    · rw [if_neg he] at h2
      cases h2
      intro hnil
      exact he (by rw [hnil]; rfl)

/-- C8, witnessed: a qualifying row produces a non-empty result list. -/
theorem C8_no_transactions_witness :
    bankStatementParser [[some (S "03/03/2024 z 7,77")]] (S "c.pdf")
      = .ok (some [⟨S "03/03/2024", S "03/03/2024 z 7,77", ⟨777, 2⟩, S "c.pdf"⟩]) ∧
    ([⟨S "03/03/2024", S "03/03/2024 z 7,77", (⟨777, 2⟩ : PyF), S "c.pdf"⟩] : List Tx) ≠ [] :=
  ⟨by decide,
   C8_no_transactions.2 [[some (S "03/03/2024 z 7,77")]] (S "c.pdf")
     [⟨S "03/03/2024", S "03/03/2024 z 7,77", ⟨777, 2⟩, S "c.pdf"⟩] (by decide)⟩

/-! ## Claim C7: per-mode error isolation -/

/-- C7: an engine error for one mode is equivalent to that mode returning
no tables — the overall extraction proceeds with the remaining modes and
returns normally, so a single mode's raised error neither propagates nor
suppresses another mode's result. -/
theorem C7_error_isolation :
    ∀ (engine : Mode → Except Unit (List DF)) (m : Mode),
      engine m = .error () →
      extract_tables engine =
        extract_tables (fun m2 => if m2 = m then .ok [] else engine m2) := by
  intro engine m h
  cases m <;> (unfold extract_tables; simp [modeOrder, h])

/-- C7, witnessed: an all-error engine behaves like one whose `lattice`
mode returns an empty table list. -/
theorem C7_error_isolation_witness :
    extract_tables (fun _ => .error ()) =
      extract_tables (fun m2 => if m2 = Mode.lattice then .ok []
        else (fun _ => (.error () : Except Unit (List DF))) m2) :=
  C7_error_isolation (fun _ => .error ()) Mode.lattice rfl

/-! ## Claim C2: `detect_locale` priority and method tags -/

/-- A one-cell table containing exactly eleven of the twenty-two French
keywords, giving a content score of exactly one half. -/
def frKwDf : DF :=
  [[some (S "solde crédit débit virement prélèvement montant opération facture relevé janvier février")]]

/-- C2 counterexample: when content analysis wins, the returned method
string is `'content (confidence: 50.00%)'` — it begins with `content`
but is not the bare tag `content` the spec lists. -/
theorem C2_counterexample :
    detect_locale ⟨S "fr"⟩ (S "statement.pdf") (some frKwDf) none
      = (S "fr", S "content (confidence: 50.00%)") ∧
    (S "content (confidence: 50.00%)" : LC) ≠ S "content" := by
  exact ⟨by decide, by decide⟩

/-- C2 amended: `detect_locale` evaluates explicit, filename, content,
default in strict priority order with short-circuiting; an unknown
explicit locale falls through; the method component is the exact tag for
`explicit`, `filename` and `default`, while a content win returns
`content (confidence: P)` — a string merely beginning with `content`. -/
theorem C2_detect_locale :
    ∀ (d : LocaleDetector) (fn : LC) (df : Option DF) (ex : Option LC),
      (∀ e, ex = some e → e ∈ localeCodes →
          detect_locale d fn df ex = (e, S "explicit")) ∧
      ((ex = none ∨ ∃ e, ex = some e ∧ e ∉ localeCodes) →
        (∀ l, detect_from_filename fn = some l →
            detect_locale d fn df ex = (l, S "filename")) ∧
        (detect_from_filename fn = none →
          (∀ t l conf, df = some t → detect_from_content t = (some l, conf) →
              detect_locale d fn df ex =
                (l, S "content (confidence: " ++ fmtPct conf ++ [')'])) ∧
          ((df = none ∨ ∃ t conf, df = some t ∧ detect_from_content t = (none, conf)) →
              detect_locale d fn df ex = (d.default_locale, S "default")))) ∧
      ((detect_locale d fn df ex).2 = S "explicit" ∨
        (detect_locale d fn df ex).2 = S "filename" ∨
        (∃ rest, (detect_locale d fn df ex).2 = S "content (confidence: " ++ rest) ∨
        (detect_locale d fn df ex).2 = S "default") := by
  intro d fn df ex
  have fb1 : ∀ l, detect_from_filename fn = some l →
      detect_locale.detectFallback d fn df = (l, S "filename") := by
    intro l hl
    simp [detect_locale.detectFallback, hl]
  have fb2 : detect_from_filename fn = none →
      ∀ t l conf, df = some t → detect_from_content t = (some l, conf) →
      detect_locale.detectFallback d fn df
        = (l, S "content (confidence: " ++ fmtPct conf ++ [')']) := by
    intro h0 t l conf hdf hc
    simp [detect_locale.detectFallback, h0, hdf, hc]
  have fb3 : detect_from_filename fn = none →
      (df = none ∨ ∃ t conf, df = some t ∧ detect_from_content t = (none, conf)) →
      detect_locale.detectFallback d fn df = (d.default_locale, S "default") := by
    intro h0 hd
    rcases hd with rfl | ⟨t, conf, rfl, hc⟩
    · simp [detect_locale.detectFallback, h0]
    · simp [detect_locale.detectFallback, h0, hc]
  have fbm : (detect_locale.detectFallback d fn df).2 = S "filename" ∨
      (∃ rest, (detect_locale.detectFallback d fn df).2 = S "content (confidence: " ++ rest) ∨
      (detect_locale.detectFallback d fn df).2 = S "default" := by
    rcases hf : detect_from_filename fn with _ | l
    · rcases df with _ | t
      · right
        right
        simp [detect_locale.detectFallback, hf]
      · rcases hc : detect_from_content t with ⟨ol, conf⟩
        rcases ol with _ | l
        · right
          right
          simp [detect_locale.detectFallback, hf, hc]
        · right
          left
          refine ⟨fmtPct conf ++ [')'], ?_⟩
          simp [detect_locale.detectFallback, hf, hc, List.append_assoc]
    · left
      simp [detect_locale.detectFallback, hf]
  have hred : (ex = none ∨ ∃ e, ex = some e ∧ e ∉ localeCodes) →
      detect_locale d fn df ex = detect_locale.detectFallback d fn df := by
    intro hex
    rcases hex with rfl | ⟨e, rfl, hne⟩
    · rfl
    · simp [detect_locale, hne]
  refine ⟨?_, ?_, ?_⟩
  · intro e he hmem
    subst he
    simp [detect_locale, hmem]
  · intro hex
    rw [hred hex]
    exact ⟨fb1, fun h0 => ⟨fb2 h0, fb3 h0⟩⟩
  · rcases ex with _ | e
    · rw [hred (Or.inl rfl)]
      rcases fbm with h | h
      · exact Or.inr (Or.inl h)
      · exact Or.inr (Or.inr h)
    · by_cases hmem : e ∈ localeCodes
      · left
        simp [detect_locale, hmem]
      · rw [hred (Or.inr ⟨e, rfl, hmem⟩)]
        rcases fbm with h | h
        · exact Or.inr (Or.inl h)
        · exact Or.inr (Or.inr h)

/-- C2 amended, witnessed: a valid explicit locale pre-empts a filename
indicator. -/
theorem C2_detect_locale_witness :
    detect_locale ⟨S "fr"⟩ (S "a_de.pdf") none (some (S "en")) = (S "en", S "explicit") :=
  (C2_detect_locale ⟨S "fr"⟩ (S "a_de.pdf") none (some (S "en"))).1 (S "en") rfl (by decide)

/-! ## Claim C1: best-mode selection -/

/-- The concatenated table of a successful, non-empty attempt (`none`
for an engine error, an empty table list, or when unused). -/
def combinedOf (engine : Mode → Except Unit (List DF)) (m : Mode) : Option DF :=
  match engine m with
  | .error _ => none
  | .ok tables => if tables.isEmpty then none else some tables.flatten

/-- `extract_tables` re-expressed through `rowCount`/`combinedOf`:
an attempt replaces the running best exactly when its row count strictly
exceeds the running maximum. -/
lemma extract_tables_eq (engine : Mode → Except Unit (List DF)) :
    extract_tables engine =
      ((modeOrder.foldl
          (fun st m => if rowCount engine m > st.2.2
            then (combinedOf engine m, some m, rowCount engine m) else st)
          ((none : Option DF), (none : Option Mode), 0)).1,
        (modeOrder.foldl
          (fun st m => if rowCount engine m > st.2.2
            then (combinedOf engine m, some m, rowCount engine m) else st)
          ((none : Option DF), (none : Option Mode), 0)).2.1) := by
  unfold extract_tables
  have hstep : ∀ (st : Option DF × Option Mode × Nat) (m : Mode), m ∈ modeOrder →
      (match engine m with
        | .error _ => st
        | .ok tables =>
            if tables.isEmpty then st
            else
              if tables.flatten.length > st.2.2
              then (some tables.flatten, some m, tables.flatten.length) else st) =
      (if rowCount engine m > st.2.2
        then (combinedOf engine m, some m, rowCount engine m) else st) := by
    intro st m _
    rcases he : engine m with u | ts
    · simp [rowCount, he]
    · by_cases hemp : ts.isEmpty
      · simp [rowCount, he, hemp]
      · simp [rowCount, he, hemp, combinedOf]
  simp only [List.foldl_ext _ _ _ hstep]

/-- C1: `extract_tables` selects the attempt with the greatest row count
(failed or empty attempts counting zero); ties go to the mode tried
earlier in the fixed order `lattice, stream, guess`; when every attempt
counts zero the result is `(none, none)`, a normal value; otherwise the
result is the winning mode's concatenated table with the mode name. -/
theorem C1_extract_tables (engine : Mode → Except Unit (List DF)) :
    (∀ m, rowCount engine m ≤ rowCount engine (bestMode (rowCount engine))) ∧
    (∀ m, rowCount engine m = rowCount engine (bestMode (rowCount engine)) →
        modeIdx (bestMode (rowCount engine)) ≤ modeIdx m) ∧
    (rowCount engine (bestMode (rowCount engine)) = 0 →
        extract_tables engine = (none, none)) ∧
    (rowCount engine (bestMode (rowCount engine)) ≠ 0 →
        ∃ ts, engine (bestMode (rowCount engine)) = .ok ts ∧
          extract_tables engine
            = (some ts.flatten, some (bestMode (rowCount engine)))) := by
  rw [extract_tables_eq engine]
  have hpos : ∀ (m : Mode) (hne : rowCount engine m ≠ 0),
      ∃ ts, engine m = .ok ts ∧ combinedOf engine m = some ts.flatten := by
    intro m hne
    rcases he : engine m with u | ts
    · exact absurd (by simp [rowCount, he]) hne
    · by_cases hemp : ts.isEmpty
      · exact absurd (by simp [rowCount, he, hemp]) hne
      · exact ⟨ts, rfl, by simp [combinedOf, he, hemp]⟩
  by_cases hB : rowCount engine Mode.stream > rowCount engine Mode.lattice
  · by_cases hC : rowCount engine Mode.guess > rowCount engine Mode.stream
    · -- best = guess
      have hbm : bestMode (rowCount engine) = Mode.guess := by
        simp [bestMode, modeOrder, List.foldl, hB, hC]
      rw [hbm]
      by_cases hA : rowCount engine Mode.lattice > 0
      · have hF : (modeOrder.foldl
            (fun st m => if rowCount engine m > st.2.2
              then (combinedOf engine m, some m, rowCount engine m) else st)
            ((none : Option DF), (none : Option Mode), 0))
            = (combinedOf engine Mode.guess, some Mode.guess, rowCount engine Mode.guess) := by
          simp [modeOrder, List.foldl, hA, hB, hC]
        rw [hF]
        refine ⟨fun m => by cases m <;> omega,
          fun m hm => by cases m <;> simp only [modeIdx] <;> omega,
          fun h0 => by omega, fun hne => ?_⟩
        obtain ⟨ts, he, hc⟩ := hpos Mode.guess hne
        exact ⟨ts, he, by rw [hc]⟩
      · have h0 : rowCount engine Mode.lattice = 0 := by omega
        have hB0 : rowCount engine Mode.stream > 0 := by omega
        have hF : (modeOrder.foldl
            (fun st m => if rowCount engine m > st.2.2
              then (combinedOf engine m, some m, rowCount engine m) else st)
            ((none : Option DF), (none : Option Mode), 0))
            = (combinedOf engine Mode.guess, some Mode.guess, rowCount engine Mode.guess) := by
          simp [modeOrder, List.foldl, hA, h0, hB0, hC]
        rw [hF]
        refine ⟨fun m => by cases m <;> omega,
          fun m hm => by cases m <;> simp only [modeIdx] <;> omega,
          fun h0 => by omega, fun hne => ?_⟩
        obtain ⟨ts, he, hc⟩ := hpos Mode.guess hne
        exact ⟨ts, he, by rw [hc]⟩
    · -- best = stream
      have hbm : bestMode (rowCount engine) = Mode.stream := by
        simp [bestMode, modeOrder, List.foldl, hB, hC]
      rw [hbm]
      by_cases hA : rowCount engine Mode.lattice > 0
      · have hF : (modeOrder.foldl
            (fun st m => if rowCount engine m > st.2.2
              then (combinedOf engine m, some m, rowCount engine m) else st)
            ((none : Option DF), (none : Option Mode), 0))
            = (combinedOf engine Mode.stream, some Mode.stream, rowCount engine Mode.stream) := by
          simp [modeOrder, List.foldl, hA, hB, hC]
        rw [hF]
        refine ⟨fun m => by cases m <;> omega,
          fun m hm => by cases m <;> simp only [modeIdx] <;> omega,
          fun h0 => by omega, fun hne => ?_⟩
        obtain ⟨ts, he, hc⟩ := hpos Mode.stream hne
        exact ⟨ts, he, by rw [hc]⟩
      · have h0 : rowCount engine Mode.lattice = 0 := by omega
        have hB0 : rowCount engine Mode.stream > 0 := by omega
        have hF : (modeOrder.foldl
            (fun st m => if rowCount engine m > st.2.2
              then (combinedOf engine m, some m, rowCount engine m) else st)
            ((none : Option DF), (none : Option Mode), 0))
            = (combinedOf engine Mode.stream, some Mode.stream, rowCount engine Mode.stream) := by
          simp [modeOrder, List.foldl, hA, h0, hB0, hC]
        rw [hF]
        refine ⟨fun m => by cases m <;> omega,
          fun m hm => by cases m <;> simp only [modeIdx] <;> omega,
          fun h0 => by omega, fun hne => ?_⟩
        obtain ⟨ts, he, hc⟩ := hpos Mode.stream hne
        exact ⟨ts, he, by rw [hc]⟩
  · by_cases hC : rowCount engine Mode.guess > rowCount engine Mode.lattice
    · -- best = guess (third mode beats the first, second never led)
      have hbm : bestMode (rowCount engine) = Mode.guess := by
        simp [bestMode, modeOrder, List.foldl, hB, hC]
      rw [hbm]
      by_cases hA : rowCount engine Mode.lattice > 0
      · have hF : (modeOrder.foldl
            (fun st m => if rowCount engine m > st.2.2
              then (combinedOf engine m, some m, rowCount engine m) else st)
            ((none : Option DF), (none : Option Mode), 0))
            = (combinedOf engine Mode.guess, some Mode.guess, rowCount engine Mode.guess) := by
          simp [modeOrder, List.foldl, hA, hB, hC]
        rw [hF]
        refine ⟨fun m => by cases m <;> omega,
          fun m hm => by cases m <;> simp only [modeIdx] <;> omega,
          fun h0 => by omega, fun hne => ?_⟩
        obtain ⟨ts, he, hc⟩ := hpos Mode.guess hne
        exact ⟨ts, he, by rw [hc]⟩
      · have h0 : rowCount engine Mode.lattice = 0 := by omega
        have hB0 : ¬ rowCount engine Mode.stream > 0 := by omega
        have hC0 : rowCount engine Mode.guess > 0 := by omega
        have hF : (modeOrder.foldl
            (fun st m => if rowCount engine m > st.2.2
              then (combinedOf engine m, some m, rowCount engine m) else st)
            ((none : Option DF), (none : Option Mode), 0))
            = (combinedOf engine Mode.guess, some Mode.guess, rowCount engine Mode.guess) := by
          simp [modeOrder, List.foldl, hA, h0, hB0, hC0]
        rw [hF]
        refine ⟨fun m => by cases m <;> omega,
          fun m hm => by cases m <;> simp only [modeIdx] <;> omega,
          fun h0 => by omega, fun hne => ?_⟩
        obtain ⟨ts, he, hc⟩ := hpos Mode.guess hne
        exact ⟨ts, he, by rw [hc]⟩
    · -- best = lattice
      have hbm : bestMode (rowCount engine) = Mode.lattice := by
        simp [bestMode, modeOrder, List.foldl, hB, hC]
      rw [hbm]
      by_cases hA : rowCount engine Mode.lattice > 0
      · have hF : (modeOrder.foldl
            (fun st m => if rowCount engine m > st.2.2
              then (combinedOf engine m, some m, rowCount engine m) else st)
            ((none : Option DF), (none : Option Mode), 0))
            = (combinedOf engine Mode.lattice, some Mode.lattice, rowCount engine Mode.lattice) := by
          simp [modeOrder, List.foldl, hA, hB, hC]
        rw [hF]
        refine ⟨fun m => by cases m <;> omega,
          fun m hm => by cases m <;> simp only [modeIdx] <;> omega,
          fun h0 => by omega, fun hne => ?_⟩
        obtain ⟨ts, he, hc⟩ := hpos Mode.lattice hne
        exact ⟨ts, he, by rw [hc]⟩
      · have h0 : rowCount engine Mode.lattice = 0 := by omega
        have hB0 : ¬ rowCount engine Mode.stream > 0 := by omega
        have hC0 : ¬ rowCount engine Mode.guess > 0 := by omega
        have hF : (modeOrder.foldl
            (fun st m => if rowCount engine m > st.2.2
              then (combinedOf engine m, some m, rowCount engine m) else st)
            ((none : Option DF), (none : Option Mode), 0))
            = ((none : Option DF), (none : Option Mode), 0) := by
          simp [modeOrder, List.foldl, hA, h0, hB0, hC0]
        rw [hF]
        refine ⟨fun m => by cases m <;> omega,
          fun m hm => by cases m <;> simp only [modeIdx] <;> omega,
          fun _ => rfl, fun hne => by omega⟩

/-- C1, witnessed: with `lattice` failing, `stream` yielding two rows and
`guess` one row, the `stream` result is selected. -/
theorem C1_extract_tables_witness :
    ∃ ts, (fun m => match m with
        | Mode.lattice => (.error () : Except Unit (List DF))
        | Mode.stream => .ok [[[some (S "a")], [some (S "b")]]]
        | Mode.guess => .ok [[[some (S "c")]]]) (bestMode (rowCount (fun m => match m with
        | Mode.lattice => .error ()
        | Mode.stream => .ok [[[some (S "a")], [some (S "b")]]]
        | Mode.guess => .ok [[[some (S "c")]]]))) = .ok ts ∧
      extract_tables (fun m => match m with
        | Mode.lattice => .error ()
        | Mode.stream => .ok [[[some (S "a")], [some (S "b")]]]
        | Mode.guess => .ok [[[some (S "c")]]])
        = (some ts.flatten, some (bestMode (rowCount (fun m => match m with
        | Mode.lattice => .error ()
        | Mode.stream => .ok [[[some (S "a")], [some (S "b")]]]
        | Mode.guess => .ok [[[some (S "c")]]])))) :=
  (C1_extract_tables (fun m => match m with
    | Mode.lattice => .error ()
    | Mode.stream => .ok [[[some (S "a")], [some (S "b")]]]
    | Mode.guess => .ok [[[some (S "c")]]])).2.2.2 (by decide)

/-! ## Claim C5: content-based detection -/

/-- A score is nonnegative. -/
lemma Score.toRat_nonneg (s : Score) : 0 ≤ s.toRat := by
  unfold Score.toRat
  positivity

/-- A score with numerator at most denominator is at most one. -/
lemma Score.toRat_le_one (s : Score) (h : s.1 ≤ s.2) (hp : 0 < s.2) : s.toRat ≤ 1 := by
  unfold Score.toRat
  rw [div_le_one (by exact_mod_cast hp)]
  exact_mod_cast h

/-- Exact comparison of score values by cross-multiplication. -/
lemma Score.toRat_le_iff (x y : Score) (hx : 0 < x.2) (hy : 0 < y.2) :
    x.toRat ≤ y.toRat ↔ x.1 * y.2 ≤ y.1 * x.2 := by
  unfold Score.toRat
  rw [div_le_div_iff (by exact_mod_cast hx) (by exact_mod_cast hy)]
  exact_mod_cast Iff.rfl

/-- Exact strict comparison of score values by cross-multiplication. -/
lemma Score.toRat_lt_iff (x y : Score) (hx : 0 < x.2) (hy : 0 < y.2) :
    x.toRat < y.toRat ↔ x.1 * y.2 < y.1 * x.2 := by
  unfold Score.toRat
  rw [div_lt_div_iff (by exact_mod_cast hx) (by exact_mod_cast hy)]
  exact_mod_cast Iff.rfl

/-- The 0.3 threshold, exactly. -/
lemma Score.toRat_threshold (s : Score) (h : 0 < s.2) :
    ((3 : ℚ)/10 ≤ s.toRat) ↔ 3 * s.2 ≤ 10 * s.1 := by
  unfold Score.toRat
  rw [div_le_div_iff (by norm_num) (by exact_mod_cast h), mul_comm (s.1 : ℚ) 10]
  exact_mod_cast Iff.rfl

/-- The numerator of a keyword score never exceeds its denominator. -/
lemma scoreOf_le (df : DF) (cfg : LocaleConfig) : (scoreOf df cfg).1 ≤ (scoreOf df cfg).2 :=
  List.length_filter_le _ _

/-- `scoreGt` decides the exact strict comparison. -/
lemma scoreGt_iff (x y : Score) : scoreGt x y = true ↔ y.1 * x.2 < x.1 * y.2 := by
  simp [scoreGt]

/-- Failure of `scoreGt` decides the exact non-strict comparison. -/
lemma scoreGt_false_iff (x y : Score) : scoreGt x y = false ↔ ¬(y.1 * x.2 < x.1 * y.2) := by
  simp [scoreGt]

/-- The result of `detect_from_content` on a non-empty table with
non-empty text, as a function of the two fold comparisons and the
threshold test on the winner. -/
lemma detect_from_content_eq (df : DF) (hne : ¬ dfEmpty df = true)
    (hblob : ¬ (contentBlob df).isEmpty = true)
    (code : LC) (cfg : LocaleConfig)
    (hwin : ((LOCALES.tail).foldl
      (fun acc p => if scoreGt (scoreOf df p.2) (scoreOf df acc.2) then p else acc)
      (S "fr", frConfig)) = (code, cfg)) :
    detect_from_content df =
      (if 10 * (scoreOf df cfg).1 ≥ 3 * (scoreOf df cfg).2
        then (some code, scoreOf df cfg) else (none, scoreOf df cfg)) := by
  unfold detect_from_content
  rw [if_neg hne, if_neg hblob, hwin]

/-- C5: for a non-empty table, every locale's keyword score lies in
`[0,1]`; `detect_from_content` returns as confidence the maximum of the
three scores (achieved by the returned locale when one is returned);
a locale is returned exactly when the maximum reaches the 0.3 threshold,
and `none` comes with a below-threshold confidence. -/
theorem C5_detect_from_content (df : DF) (hne : ¬ dfEmpty df = true) :
    (∀ p ∈ LOCALES, 0 ≤ (scoreOf df p.2).toRat ∧ (scoreOf df p.2).toRat ≤ 1) ∧
    (∃ p ∈ LOCALES, (scoreOf df p.2).toRat = (detect_from_content df).2.toRat) ∧
    (∀ p ∈ LOCALES, (scoreOf df p.2).toRat ≤ (detect_from_content df).2.toRat) ∧
    (∀ l, (detect_from_content df).1 = some l →
        ∃ p ∈ LOCALES, p.1 = l ∧ scoreOf df p.2 = (detect_from_content df).2 ∧
          (3 : ℚ)/10 ≤ (detect_from_content df).2.toRat) ∧
    ((detect_from_content df).1 = none → (detect_from_content df).2.toRat < 3/10) ∧
    ((3 : ℚ)/10 ≤ (detect_from_content df).2.toRat →
        ∃ l, (detect_from_content df).1 = some l) := by
  have pfr : 0 < (scoreOf df frConfig).2 := by
    show 0 < frConfig.keywords.length
    decide
  have pde : 0 < (scoreOf df deConfig).2 := by
    show 0 < deConfig.keywords.length
    decide
  have pen : 0 < (scoreOf df enConfig).2 := by
    show 0 < enConfig.keywords.length
    decide
  have hbounds : ∀ p ∈ LOCALES, 0 ≤ (scoreOf df p.2).toRat ∧ (scoreOf df p.2).toRat ≤ 1 := by
    intro p hp
    simp only [LOCALES, List.mem_cons, List.not_mem_nil, or_false] at hp
    rcases hp with rfl | rfl | rfl
    · exact ⟨Score.toRat_nonneg _, Score.toRat_le_one _ (scoreOf_le df frConfig) pfr⟩
    · exact ⟨Score.toRat_nonneg _, Score.toRat_le_one _ (scoreOf_le df deConfig) pde⟩
    · exact ⟨Score.toRat_nonneg _, Score.toRat_le_one _ (scoreOf_le df enConfig) pen⟩
  by_cases hblob : (contentBlob df).isEmpty
  · have hb : contentBlob df = [] := by rwa [List.isEmpty_iff] at hblob
    have hres : detect_from_content df = (none, (0, 1)) := by
      unfold detect_from_content
      rw [if_neg hne, if_pos hblob]
    have hfr : scoreOf df frConfig = (0, 22) := by
      simp only [scoreOf]
      rw [hb]
      decide
    have hde : scoreOf df deConfig = (0, 21) := by
      simp only [scoreOf]
      rw [hb]
      decide
    have hen : scoreOf df enConfig = (0, 22) := by
      simp only [scoreOf]
      rw [hb]
      decide
    rw [hres]
    refine ⟨hbounds, ?_, ?_, ?_, ?_, ?_⟩
    · refine ⟨(S "fr", frConfig), by decide, ?_⟩
      rw [hfr]
      norm_num [Score.toRat]
    · intro p hp
      simp only [LOCALES, List.mem_cons, List.not_mem_nil, or_false] at hp
      rcases hp with rfl | rfl | rfl
      · rw [hfr]; norm_num [Score.toRat]
      · rw [hde]; norm_num [Score.toRat]
      · rw [hen]; norm_num [Score.toRat]
    · intro l hl
      simp at hl
    · intro _
      norm_num [Score.toRat]
    · intro h6
      norm_num [Score.toRat] at h6
  · -- non-empty blob: resolve the two comparisons of the fold
    have hwin : ∀ (code : LC) (cfg : LocaleConfig),
        ((LOCALES.tail).foldl
          (fun acc p => if scoreGt (scoreOf df p.2) (scoreOf df acc.2) then p else acc)
          (S "fr", frConfig)) = (code, cfg) →
        (∀ p ∈ LOCALES, (scoreOf df p.2).toRat ≤ (scoreOf df cfg).toRat) →
        ((code, cfg) ∈ LOCALES) →
        (∀ p ∈ LOCALES, 0 ≤ (scoreOf df p.2).toRat ∧ (scoreOf df p.2).toRat ≤ 1) →
        (0 < (scoreOf df cfg).2) →
        (∃ p ∈ LOCALES, (scoreOf df p.2).toRat = (detect_from_content df).2.toRat) ∧
        (∀ p ∈ LOCALES, (scoreOf df p.2).toRat ≤ (detect_from_content df).2.toRat) ∧
        (∀ l, (detect_from_content df).1 = some l →
            ∃ p ∈ LOCALES, p.1 = l ∧ scoreOf df p.2 = (detect_from_content df).2 ∧
              (3 : ℚ)/10 ≤ (detect_from_content df).2.toRat) ∧
        ((detect_from_content df).1 = none → (detect_from_content df).2.toRat < 3/10) ∧
        ((3 : ℚ)/10 ≤ (detect_from_content df).2.toRat →
            ∃ l, (detect_from_content df).1 = some l) := by
      intro code cfg hw hmax hmem _ hpos
      have hres := detect_from_content_eq df hne hblob code cfg hw
      by_cases h3 : 10 * (scoreOf df cfg).1 ≥ 3 * (scoreOf df cfg).2
      · rw [if_pos h3] at hres
        rw [hres]
        have hth : (3 : ℚ)/10 ≤ (scoreOf df cfg).toRat :=
          (Score.toRat_threshold _ hpos).mpr (by omega)
        exact ⟨⟨(code, cfg), hmem, rfl⟩, hmax,
          fun l hl => ⟨(code, cfg), hmem, by simpa using hl, rfl, hth⟩,
          fun h5 => by simp at h5, fun _ => ⟨code, rfl⟩⟩
      · rw [if_neg h3] at hres
        rw [hres]
        have hth : (scoreOf df cfg).toRat < 3/10 := by
          by_contra hcon
          push_neg at hcon
          exact h3 ((Score.toRat_threshold _ hpos).mp hcon)
        exact ⟨⟨(code, cfg), hmem, rfl⟩, hmax,
          fun l hl => by simp at hl, fun _ => hth,
          fun h6 => absurd h6 (not_le.mpr hth)⟩
    refine ⟨hbounds, ?_⟩
    rcases hb1 : scoreGt (scoreOf df deConfig) (scoreOf df frConfig) with _ | _
    · have q1 : (scoreOf df deConfig).toRat ≤ (scoreOf df frConfig).toRat := by
        refine (Score.toRat_le_iff _ _ pde pfr).mpr ?_
        have := (scoreGt_false_iff (scoreOf df deConfig) (scoreOf df frConfig)).mp hb1
        omega
      rcases hb2 : scoreGt (scoreOf df enConfig) (scoreOf df frConfig) with _ | _
      · have q2 : (scoreOf df enConfig).toRat ≤ (scoreOf df frConfig).toRat := by
          refine (Score.toRat_le_iff _ _ pen pfr).mpr ?_
          have := (scoreGt_false_iff (scoreOf df enConfig) (scoreOf df frConfig)).mp hb2
          omega
        refine hwin (S "fr") frConfig ?_ ?_ (by decide) hbounds pfr
        · simp only [LOCALES, List.tail_cons, List.foldl, hb1, hb2, Bool.false_eq_true,
            if_false]
        · intro p hp
          simp only [LOCALES, List.mem_cons, List.not_mem_nil, or_false] at hp
          rcases hp with rfl | rfl | rfl
          · exact le_rfl
          · exact q1
          · exact q2
      · have q2 : (scoreOf df frConfig).toRat < (scoreOf df enConfig).toRat :=
          (Score.toRat_lt_iff _ _ pfr pen).mpr ((scoreGt_iff _ _).mp hb2)
        refine hwin (S "en") enConfig ?_ ?_ (by decide) hbounds pen
        · simp only [LOCALES, List.tail_cons, List.foldl, hb1, hb2, Bool.false_eq_true,
            if_false, if_true]
        · intro p hp
          simp only [LOCALES, List.mem_cons, List.not_mem_nil, or_false] at hp
          rcases hp with rfl | rfl | rfl
          · exact le_of_lt q2
          · exact le_trans q1 (le_of_lt q2)
          · exact le_rfl
    · have q1 : (scoreOf df frConfig).toRat < (scoreOf df deConfig).toRat :=
        (Score.toRat_lt_iff _ _ pfr pde).mpr ((scoreGt_iff _ _).mp hb1)
      rcases hb2 : scoreGt (scoreOf df enConfig) (scoreOf df deConfig) with _ | _
      · have q2 : (scoreOf df enConfig).toRat ≤ (scoreOf df deConfig).toRat := by
          refine (Score.toRat_le_iff _ _ pen pde).mpr ?_
          have := (scoreGt_false_iff (scoreOf df enConfig) (scoreOf df deConfig)).mp hb2
          omega
        refine hwin (S "de") deConfig ?_ ?_ (by decide) hbounds pde
        · simp only [LOCALES, List.tail_cons, List.foldl, hb1, hb2, Bool.false_eq_true,
            if_false, if_true]
        · intro p hp
          simp only [LOCALES, List.mem_cons, List.not_mem_nil, or_false] at hp
          rcases hp with rfl | rfl | rfl
          · exact le_of_lt q1
          · exact le_rfl
          · exact q2
      · have q2 : (scoreOf df deConfig).toRat < (scoreOf df enConfig).toRat :=
          (Score.toRat_lt_iff _ _ pde pen).mpr ((scoreGt_iff _ _).mp hb2)
        refine hwin (S "en") enConfig ?_ ?_ (by decide) hbounds pen
        · simp only [LOCALES, List.tail_cons, List.foldl, hb1, hb2, Bool.false_eq_true,
            if_false, if_true]
        · intro p hp
          simp only [LOCALES, List.mem_cons, List.not_mem_nil, or_false] at hp
          rcases hp with rfl | rfl | rfl
          · exact le_of_lt (lt_trans q1 q2)
          · exact le_of_lt q2
          · exact le_rfl

/-- C5, witnessed at a concrete table containing eleven French keywords:
the French score is bounded by the returned confidence. -/
theorem C5_detect_from_content_witness :
    (scoreOf frKwDf frConfig).toRat ≤ (detect_from_content frKwDf).2.toRat :=
  (C5_detect_from_content frKwDf (by decide)).2.2.1 (S "fr", frConfig) (by decide)

/-! ## Claim C4: bank statement row parsing -/

/-- C4 counterexample: the row `"01/01/2024 shop 1\t23"` has one date
match and one amount match (the amount regex lets `\s` match the tab as
the cent separator), yet no transaction is emitted: `replace(' ', '')`
does not remove the tab, `float('1\t23')` raises, and the exception
propagates out of the parser. -/
theorem C4_counterexample :
    findall dateRE (rowStr [some (S "01/01/2024 shop 1\t23")]) = [S "01/01/2024"] ∧
    findall amtRE (rowStr [some (S "01/01/2024 shop 1\t23")]) = [S " 1\t23"] ∧
    bankStatementParser [[some (S "01/01/2024 shop 1\t23")]] (S "x.pdf") = .error () := by
  exact ⟨by decide, by decide, by decide⟩

/-- The row loop equals a `mapM` of the row processor followed by
collecting the emitted transactions. -/
lemma go_eq_mapM (f : LC) (df : DF) :
    bankStatementParser.go f df =
      match df.mapM (fun row => processRow row f) with
      | .error e => .error e
      | .ok opts => .ok (opts.filterMap id) := by
  induction df with
  | nil => rfl
  | cons row rest ih =>
      rw [List.mapM_cons]
      unfold bankStatementParser.go
      rcases hp : processRow row f with e | o
      · simp [hp, Bind.bind, Except.bind]
      · rcases o with _ | tx
        · rw [ih]
          rcases hm : rest.mapM (fun row => processRow row f) with e2 | opts
          · simp [hp, hm, Bind.bind, Except.bind]
          · simp [hp, hm, Bind.bind, Except.bind, Pure.pure, Except.pure]
        · rw [ih]
          rcases hm : rest.mapM (fun row => processRow row f) with e2 | opts
          · simp [hp, hm, Bind.bind, Except.bind]
          · simp [hp, hm, Bind.bind, Except.bind, Pure.pure, Except.pure]

/-- C4 amended: a row emits a transaction iff it has at least one date
match, at least one amount match, AND the float conversion of the
cleaned last amount succeeds (a tab matched by `\s` makes it fail and
the error propagates, aborting the whole parse); an emitted transaction
carries the first date, the cleaned last amount's value, and the full
joined row string; the parser is the row-wise map of this processing;
the spec's worked example holds. -/
theorem C4_bank_statement :
    (∀ (df : DF) (f : LC),
        bankStatementParser df f =
          match df.mapM (fun row => processRow row f) with
          | .error e => .error e
          | .ok opts =>
              if (opts.filterMap id).isEmpty then .ok none
              else .ok (some (opts.filterMap id))) ∧
    (∀ (row : List Cell) (f : LC),
        (findall dateRE (rowStr row)).isEmpty = true ∨
          (findall amtRE (rowStr row)).isEmpty = true →
        processRow row f = .ok none) ∧
    (∀ (row : List Cell) (f : LC) (tx : Tx), processRow row f = .ok (some tx) →
        (findall dateRE (rowStr row)).isEmpty = false ∧
        (findall amtRE (rowStr row)).isEmpty = false ∧
        tx.date = (findall dateRE (rowStr row)).headD [] ∧
        tx.description = rowStr row ∧
        tx.source = f ∧
        pyFloat? (transformAmt ((findall amtRE (rowStr row)).getLastD []))
          = some tx.amount) ∧
    bankStatementParser [[some (S "15/01/2024 Grocery Store 45,50 2300,17")]] (S "f.pdf")
      = .ok (some [{ date := S "15/01/2024",
                     description := S "15/01/2024 Grocery Store 45,50 2300,17",
                     amount := ⟨230017, 2⟩, source := S "f.pdf" }]) := by
  refine ⟨?_, ?_, ?_, by decide⟩
  · intro df f
    unfold bankStatementParser
    rw [go_eq_mapM]
    rcases hm : df.mapM (fun row => processRow row f) with e | opts
    · rfl
    · rfl
  · intro row f h
    rcases h with h | h <;> simp [processRow, h]
  · intro row f tx h
    unfold processRow at h
    by_cases hc : (findall dateRE (rowStr row)).isEmpty
        || (findall amtRE (rowStr row)).isEmpty
    · rw [if_pos hc] at h
      cases h
    · rw [if_neg hc] at h
      rcases hf : pyFloat? (transformAmt ((findall amtRE (rowStr row)).getLastD []))
          with _ | v
      · rw [hf] at h
        cases h
      · rw [hf] at h
        simp only [Except.ok.injEq, Option.some.injEq] at h
        subst h
        simp only [Bool.or_eq_true, not_or, Bool.not_eq_true] at hc
        refine ⟨hc.1, hc.2, rfl, rfl, rfl, ?_⟩
        rfl

/-- C4, witnessed: a row with no date match is skipped. -/
theorem C4_bank_statement_witness :
    processRow [some (S "hello world")] (S "p.pdf") = .ok none :=
  C4_bank_statement.2.1 [some (S "hello world")] (S "p.pdf") (Or.inl (by decide))

/-! ## Claim C9: amount-pattern conversion safety -/

/-- `takeWhile` of an all-satisfying list. -/
lemma takeWhile_eq_self_of (p : Char → Bool) (l : LC) (h : ∀ c ∈ l, p c = true) :
    l.takeWhile p = l := by
  induction l with
  | nil => rfl
  | cons a r ih =>
      simp [List.takeWhile, h a (List.mem_cons_self _ _),
        ih (fun c hc => h c (List.mem_cons_of_mem _ hc))]

/-- `dropWhile` of an all-satisfying list. -/
lemma dropWhile_eq_nil_of (p : Char → Bool) (l : LC) (h : ∀ c ∈ l, p c = true) :
    l.dropWhile p = [] := by
  induction l with
  | nil => rfl
  | cons a r ih =>
      simp [List.dropWhile, h a (List.mem_cons_self _ _),
        ih (fun c hc => h c (List.mem_cons_of_mem _ hc))]

/-- `takeWhile` across an all-satisfying prefix. -/
lemma takeWhile_append_of (p : Char → Bool) (a b : LC) (h : ∀ c ∈ a, p c = true) :
    (a ++ b).takeWhile p = a ++ b.takeWhile p := by
  induction a with
  | nil => rfl
  | cons x r ih =>
      simp [List.takeWhile, h x (List.mem_cons_self _ _),
        ih (fun c hc => h c (List.mem_cons_of_mem _ hc))]

/-- `dropWhile` across an all-satisfying prefix. -/
lemma dropWhile_append_of (p : Char → Bool) (a b : LC) (h : ∀ c ∈ a, p c = true) :
    (a ++ b).dropWhile p = b.dropWhile p := by
  induction a with
  | nil => rfl
  | cons x r ih =>
      simp [List.dropWhile, h x (List.mem_cons_self _ _),
        ih (fun c hc => h c (List.mem_cons_of_mem _ hc))]

/-- `pyStrip` of a whitespace-free string. -/
lemma pyStrip_eq_self (l : LC) (h : ∀ c ∈ l, isWs c = false) : pyStrip l = l := by
  unfold pyStrip
  rw [dropWhile_eq_self_of _ _ h]
  rw [dropWhile_eq_self_of _ _ (fun c hc => h c (List.mem_reverse.mp hc))]
  exact List.reverse_reverse l

/-- `map` with a pointwise-identity function. -/
lemma map_eq_self_of (f : Char → Char) (l : LC) (h : ∀ c ∈ l, f c = c) : l.map f = l := by
  induction l with
  | nil => rfl
  | cons a r ih =>
      simp [h a (List.mem_cons_self _ _), ih (fun c hc => h c (List.mem_cons_of_mem _ hc))]

/-- `readSignZ` consumes nothing from a string whose head is not a sign. -/
lemma readSignZ_of_ne (c : Char) (r : LC) (h1 : c ≠ '+') (h2 : c ≠ '-') :
    readSignZ (c :: r) = (1, c :: r) := by
  unfold readSignZ
  split
  · rename_i r2 heq
    injection heq with hc _
    exact absurd hc h1
  · rename_i r2 heq
    injection heq with hc _
    exact absurd hc h2
  · rfl

/-- Membership in the digit class means being an ASCII digit. -/
lemma isDig_of_contains (c : Char) (h : digChars.contains c = true) : isDig c = true := by
  have hc0 : c ∈ digChars := by simpa using h
  have hc : c ∈ (['0', '1', '2', '3', '4', '5', '6', '7', '8', '9'] : LC) := hc0
  fin_cases hc <;> rfl

/-- A digit is not a space and not a comma and not whitespace. -/
lemma isDig_facts (c : Char) (h : isDig c = true) :
    c ≠ ' ' ∧ c ≠ ',' ∧ c ≠ '+' ∧ c ≠ '-' ∧ isWs c = false := by
  refine ⟨?_, ?_, ?_, ?_, ?_⟩
  · intro hh; rw [hh] at h; exact absurd h (by decide)
  · intro hh; rw [hh] at h; exact absurd h (by decide)
  · intro hh; rw [hh] at h; exact absurd h (by decide)
  · intro hh; rw [hh] at h; exact absurd h (by decide)
  · rcases hw : isWs c with _ | _
    · rfl
    · have hc0 : c ∈ wsChars := by simpa [isWs] using hw
      have hc : c ∈ ([' ', '\t', '\n', '\x0d', '\x0b', '\x0c'] : LC) := hc0
      fin_cases hc <;> exact absurd h (by decide)

/-- The core grammar accepts a non-empty digit string. -/
lemma pyFloatCore_digits (ds : LC) (sgn : ℤ) (hne : ds ≠ [])
    (hd : ∀ c ∈ ds, isDig c = true) : (pyFloatCore ds sgn).isSome = true := by
  unfold pyFloatCore
  rw [takeWhile_eq_self_of _ _ hd, dropWhile_eq_nil_of _ _ hd]
  have hie : ds.isEmpty = false := by
    rcases ds with _ | ⟨a, r⟩
    · simp at hne
    · rfl
  simp [fracPart, restPart, hie]

/-- The core grammar accepts digits, a point, then digits. -/
lemma pyFloatCore_digits_dot (ds fs : LC) (sgn : ℤ) (hne : ds ≠ [])
    (hd : ∀ c ∈ ds, isDig c = true) (hf : ∀ c ∈ fs, isDig c = true) :
    (pyFloatCore (ds ++ '.' :: fs) sgn).isSome = true := by
  unfold pyFloatCore
  rw [takeWhile_append_of _ _ _ hd, dropWhile_append_of _ _ _ hd]
  have h1 : ('.' :: fs).takeWhile isDig = [] := rfl
  have h2 : ('.' :: fs).dropWhile isDig = '.' :: fs := rfl
  rw [h1, h2]
  have hie : ds.isEmpty = false := by
    rcases ds with _ | ⟨a, r⟩
    · simp at hne
    · rfl
  simp [fracPart, restPart, hie, takeWhile_eq_self_of _ _ hf, dropWhile_eq_nil_of _ _ hf]

/-- `filter` removing everything. -/
lemma filter_eq_nil_of (p : Char → Bool) (l : LC) (h : ∀ c ∈ l, p c = false) :
    l.filter p = [] := by
  induction l with
  | nil => rfl
  | cons a r ih =>
      simp [List.filter, h a (List.mem_cons_self _ _),
        ih (fun c hc => h c (List.mem_cons_of_mem _ hc))]

/-- `filter` keeping everything. -/
lemma filter_eq_self_of (p : Char → Bool) (l : LC) (h : ∀ c ∈ l, p c = true) :
    l.filter p = l := by
  induction l with
  | nil => rfl
  | cons a r ih =>
      simp [List.filter, h a (List.mem_cons_self _ _),
        ih (fun c hc => h c (List.mem_cons_of_mem _ hc))]

/-- The separator class `[,\s]` contains exactly the comma and whitespace. -/
lemma sep_cases (c : Char) (h : ((',' :: wsChars).contains c) = true) :
    c = ',' ∨ isWs c = true := by
  have hc0 : c ∈ (',' :: wsChars) := by simpa using h
  rcases List.mem_cons.mp hc0 with rfl | hmem
  · exact Or.inl rfl
  · exact Or.inr (by simpa [isWs] using hmem)

/-- `pyFloat?` on a whitespace-free string, after the sign. -/
lemma pyFloat?_eq (t : LC) (h : ∀ c ∈ t, isWs c = false) :
    pyFloat? t = pyFloatCore (readSignZ t).2 (readSignZ t).1 := by
  show pyFloatCore (readSignZ (pyStrip t)).2 (readSignZ (pyStrip t)).1
    = pyFloatCore (readSignZ t).2 (readSignZ t).1
  rw [pyStrip_eq_self _ h]

/-- Acceptance of an optional sign followed by an accepted body. -/
lemma pyFloat?_isSome_of (sgn body : LC)
    (hs : sgn = [] ∨ sgn = ['+'] ∨ sgn = ['-'])
    (hbw : ∀ c ∈ body, isWs c = false)
    (hdig_head : ∃ d r, body = d :: r ∧ isDig d = true)
    (hcore : ∀ z : ℤ, (pyFloatCore body z).isSome = true) :
    (pyFloat? (sgn ++ body)).isSome = true := by
  have hnoWs : ∀ c ∈ sgn ++ body, isWs c = false := by
    intro c hc
    rcases List.mem_append.mp hc with h | h
    · rcases hs with rfl | rfl | rfl
      · simp at h
      · rcases List.mem_singleton.mp h with rfl
        rfl
      · rcases List.mem_singleton.mp h with rfl
        rfl
    · exact hbw c h
  rw [pyFloat?_eq _ hnoWs]
  rcases hs with rfl | rfl | rfl
  · obtain ⟨d, r, rfl, hd⟩ := hdig_head
    rw [List.nil_append,
      readSignZ_of_ne d r (isDig_facts d hd).2.2.1 (isDig_facts d hd).2.2.2.1]
    exact hcore 1
  · exact hcore 1
  · exact hcore (-1)

/-- C9 counterexample: `"1\t23"` is matched in full by the amount pattern
(the tab is matched by `\s` as the cent separator), yet removing spaces
and replacing commas leaves the tab in place, `float()` rejects the
result, and `bank_statement_parser` raises on a row whose last amount
match carries a tab. -/
theorem C9_counterexample :
    Matches amtRE (S "1\t23") ∧
    pyFloat? (transformAmt (S "1\t23")) = none ∧
    bankStatementParser [[some (S "02/02/2024 y 5\t00")]] (S "y.pdf") = .error () := by
  refine ⟨?_, by decide, by decide⟩
  show ∃ u v, (S "1\t23") = u ++ v ∧
      ((∃ c, u = [c] ∧ (['+', '-'] : LC).contains c = true) ∨ u = []) ∧
      ∃ u2 v2, v = u2 ++ v2 ∧ (∀ c ∈ u2, wsChars.contains c = true) ∧
      ∃ u3 v3, v2 = u3 ++ v3 ∧ (u3 ≠ [] ∧ ∀ c ∈ u3, digChars.contains c = true) ∧
      ∃ u4 v4, v3 = u4 ++ v4 ∧ (∃ c, u4 = [c] ∧ ((',' :: wsChars).contains c = true)) ∧
      ∃ parts : List LC, 2 ≤ parts.length ∧ parts.length ≤ 2 ∧ v4 = parts.flatten ∧
        ∀ p ∈ parts, ∃ c, p = [c] ∧ digChars.contains c = true
  refine ⟨[], S "1\t23", by decide, Or.inr rfl,
    [], S "1\t23", by decide, by decide,
    ['1'], S "\t23", by decide, ⟨by decide, by decide⟩,
    ['\t'], S "23", by decide, ⟨'\t', rfl, by decide⟩,
    [['2'], ['3']], by decide, by decide, by decide, ?_⟩
  intro p hp
  rcases List.mem_cons.mp hp with rfl | hp2
  · exact ⟨'2', rfl, by decide⟩
  · rcases List.mem_cons.mp hp2 with rfl | hp3
    · exact ⟨'3', rfl, by decide⟩
    · simp at hp3

/-- C9 amended: a string matched by the amount pattern in which every
whitespace character is an actual space converts successfully after the
space-removal and comma-to-period cleanup — so the parser's conversion
can only fail (and the parser only raises) when `\s` matched a
non-space whitespace character such as a tab inside the amount. -/
theorem C9_amount_conversion (s : LC) (hm : Matches amtRE s)
    (hsp : ∀ c ∈ s, isWs c = true → c = ' ') :
    (pyFloat? (transformAmt s)).isSome = true := by
  have hm1 : ∃ u v, s = u ++ v ∧
      ((∃ c, u = [c] ∧ (['+', '-'] : LC).contains c = true) ∨ u = []) ∧
      ∃ u2 v2, v = u2 ++ v2 ∧ (∀ c ∈ u2, wsChars.contains c = true) ∧
      ∃ u3 v3, v2 = u3 ++ v3 ∧ (u3 ≠ [] ∧ ∀ c ∈ u3, digChars.contains c = true) ∧
      ∃ u4 v4, v3 = u4 ++ v4 ∧ (∃ c, u4 = [c] ∧ ((',' :: wsChars).contains c = true)) ∧
      ∃ parts : List LC, 2 ≤ parts.length ∧ parts.length ≤ 2 ∧ v4 = parts.flatten ∧
        ∀ p ∈ parts, ∃ c, p = [c] ∧ digChars.contains c = true := hm
  obtain ⟨u1, v1, rfl, hs1, u2, v2, rfl, hs2, u3, v3, rfl, hs3, u4, v4, rfl, hs4,
    parts, _, _, rfl, hparts⟩ := hm1
  have hu3d : ∀ c ∈ u3, isDig c = true := fun c hc => isDig_of_contains c (hs3.2 c hc)
  have hv4d : ∀ c ∈ parts.flatten, isDig c = true := by
    intro c hc
    obtain ⟨p, hp, hcp⟩ := List.mem_flatten.mp hc
    obtain ⟨d, rfl, hd⟩ := hparts p hp
    rcases List.mem_singleton.mp hcp with rfl
    exact isDig_of_contains _ hd
  have hu2sp : ∀ c ∈ u2, c = ' ' := by
    intro c hc
    refine hsp c ?_ (by simpa [isWs] using hs2 c hc)
    exact List.mem_append.mpr (Or.inr (List.mem_append.mpr (Or.inl hc)))
  -- the transformed pieces
  have hT2 : u2.filter (fun c => c ≠ ' ') = [] := by
    refine filter_eq_nil_of _ _ (fun c hc => ?_)
    simp [hu2sp c hc]
  have hT3f : u3.filter (fun c => c ≠ ' ') = u3 := by
    refine filter_eq_self_of _ _ (fun c hc => ?_)
    simp [(isDig_facts c (hu3d c hc)).1]
  have hT3m : u3.map (fun c => if c = ',' then '.' else c) = u3 := by
    refine map_eq_self_of _ _ (fun c hc => ?_)
    exact if_neg (isDig_facts c (hu3d c hc)).2.1
  have hT5f : (parts.flatten).filter (fun c => c ≠ ' ') = parts.flatten := by
    refine filter_eq_self_of _ _ (fun c hc => ?_)
    simp [(isDig_facts c (hv4d c hc)).1]
  have hT5m : (parts.flatten).map (fun c => if c = ',' then '.' else c) = parts.flatten := by
    refine map_eq_self_of _ _ (fun c hc => ?_)
    exact if_neg (isDig_facts c (hv4d c hc)).2.1
  have hT1 : (u1.filter (fun c => c ≠ ' ')).map (fun c => if c = ',' then '.' else c) = u1 ∧
      (u1 = [] ∨ u1 = ['+'] ∨ u1 = ['-']) := by
    rcases hs1 with ⟨c, rfl, hcc⟩ | rfl
    · have hc2 : c ∈ (['+', '-'] : LC) := by simpa using hcc
      fin_cases hc2
      · exact ⟨rfl, Or.inr (Or.inl rfl)⟩
      · exact ⟨rfl, Or.inr (Or.inr rfl)⟩
    · exact ⟨rfl, Or.inl rfl⟩
  have hbody_core : ∀ (pre : LC), (∀ c ∈ pre, isDig c = true) →
      ∀ z : ℤ, (pyFloatCore (u3 ++ pre) z).isSome = true := by
    intro pre hpre z
    refine pyFloatCore_digits (u3 ++ pre) z ?_ ?_
    · rcases hs3.1 with h
      intro hh
      rcases u3 with _ | ⟨a, r⟩
      · exact h rfl
      · simp at hh
    · intro c hc
      rcases List.mem_append.mp hc with h | h
      · exact hu3d c h
      · exact hpre c h
  obtain ⟨c4, rfl, hc4⟩ := hs4
  unfold transformAmt
  simp only [List.filter_append, List.map_append, hT2, hT3f, hT3m, hT5f, hT5m,
    List.map_nil, List.nil_append]
  rcases sep_cases c4 hc4 with rfl | hws
  · -- comma separator: body is digits, a point, digits
    have hT4 : ([','].filter (fun c => c ≠ ' ')).map (fun c => if c = ',' then '.' else c)
        = ['.'] := by decide
    rw [hT1.1, hT4]
    have hshape : u3 ++ (['.'] ++ parts.flatten) = u3 ++ '.' :: parts.flatten := rfl
    rw [hshape]
    refine pyFloat?_isSome_of u1 (u3 ++ '.' :: parts.flatten) hT1.2 ?_ ?_ ?_
    · intro c hc
      rcases List.mem_append.mp hc with h | h
      · exact (isDig_facts c (hu3d c h)).2.2.2.2
      · rcases List.mem_cons.mp h with rfl | h2
        · rfl
        · exact (isDig_facts c (hv4d c h2)).2.2.2.2
    · rcases hu3 : u3 with _ | ⟨a, r⟩
      · exact absurd hu3 hs3.1
      · exact ⟨a, r ++ '.' :: parts.flatten, by simp, hu3d a (by rw [hu3]; simp)⟩
    · intro z
      exact pyFloatCore_digits_dot u3 parts.flatten z hs3.1 hu3d hv4d
  · -- whitespace separator: it is a space, removed by the cleanup
    have hc4sp : c4 = ' ' := by
      refine hsp c4 ?_ hws
      refine List.mem_append.mpr (Or.inr (List.mem_append.mpr (Or.inr ?_)))
      refine List.mem_append.mpr (Or.inr (List.mem_append.mpr (Or.inl ?_)))
      exact List.mem_singleton.mpr rfl
    subst hc4sp
    have hT4 : ([' '].filter (fun c => c ≠ ' ')).map (fun c => if c = ',' then '.' else c)
        = [] := by decide
    rw [hT1.1, hT4, List.nil_append]
    refine pyFloat?_isSome_of u1 (u3 ++ parts.flatten) hT1.2 ?_ ?_ ?_
    · intro c hc
      rcases List.mem_append.mp hc with h | h
      · exact (isDig_facts c (hu3d c h)).2.2.2.2
      · exact (isDig_facts c (hv4d c h)).2.2.2.2
    · rcases hu3 : u3 with _ | ⟨a, r⟩
      · exact absurd hu3 hs3.1
      · exact ⟨a, r ++ parts.flatten, by simp, hu3d a (by rw [hu3]; simp)⟩
    · exact hbody_core parts.flatten hv4d

/-- C9 amended, witnessed: the matched string `"+ 12,34"` cleans to
`"+12.34"` and converts. -/
theorem C9_amount_conversion_witness :
    (pyFloat? (transformAmt (S "+ 12,34"))).isSome = true := by
  refine C9_amount_conversion (S "+ 12,34") ?_ (by decide)
  show ∃ u v, (S "+ 12,34") = u ++ v ∧
      ((∃ c, u = [c] ∧ (['+', '-'] : LC).contains c = true) ∨ u = []) ∧
      ∃ u2 v2, v = u2 ++ v2 ∧ (∀ c ∈ u2, wsChars.contains c = true) ∧
      ∃ u3 v3, v2 = u3 ++ v3 ∧ (u3 ≠ [] ∧ ∀ c ∈ u3, digChars.contains c = true) ∧
      ∃ u4 v4, v3 = u4 ++ v4 ∧ (∃ c, u4 = [c] ∧ ((',' :: wsChars).contains c = true)) ∧
      ∃ parts : List LC, 2 ≤ parts.length ∧ parts.length ≤ 2 ∧ v4 = parts.flatten ∧
        ∀ p ∈ parts, ∃ c, p = [c] ∧ digChars.contains c = true
  refine ⟨['+'], S " 12,34", by decide, Or.inl ⟨'+', rfl, by decide⟩,
    [' '], S "12,34", by decide, by decide,
    ['1', '2'], S ",34", by decide, ⟨by decide, by decide⟩,
    [','], S "34", by decide, ⟨',', rfl, by decide⟩,
    [['3'], ['4']], by decide, by decide, by decide, ?_⟩
  intro p hp
  rcases List.mem_cons.mp hp with rfl | hp2
  · exact ⟨'3', rfl, by decide⟩
  · rcases List.mem_cons.mp hp2 with rfl | hp3
    · exact ⟨'4', rfl, by decide⟩
    · simp at hp3
